import Mathlib

/-!
Verification development for the dinao SQL-templating / function-binding core.

The definitions below are a shallow embedding of:
  * `src/dinao/binding/templating.py`  (Template grammar, parsing, rendering,
    argument resolution),
  * `src/dinao/mung.py`                (mung symbol providers),
  * `src/dinao/binding/mappers.py`     (row mappers),
  * `src/dinao/binding/binders/base.py` (return-shape inference, bind-time checks),
  * `src/dinao/binding/binders/sync.py` / `async_.py` (connection scope,
    call-time query/execution behaviour; sync and async share these semantics).

Python values are modelled by the inductive `Value`; Python exceptions by
`PyError`.  Machine-level details that no claim depends on (floats, object
addresses in reprs) are outside the `Value` universe.
-/

namespace Dinao

/-- A Python value as used by the binding core: argument contexts are nested
dicts / objects; resolved template arguments and mapped rows are values. -/
inductive Value where
  | none
  | bool (b : Bool)
  | int (n : Int)
  | str (s : String)
  | dict (entries : List (String × Value))
  | obj (cls : String) (attrs : List (String × Value))
  | tuple (vs : List Value)
  | list (vs : List Value)

/-- Python truthiness (`if value:`): `None`/`0`/`""`/empty containers are
falsy; plain objects are truthy. -/
def Value.truthy : Value → Bool
  | .none => false
  | .bool b => b
  | .int n => n != 0
  | .str s => s != ""
  | .dict es => !es.isEmpty
  | .obj _ _ => true
  | .tuple vs => !vs.isEmpty
  | .list vs => !vs.isEmpty

mutual

/-- Python `repr` of a value (object addresses elided for `obj`, which no
template in the claims ever stringifies). -/
def Value.pyRepr : Value → String
  | .none => "None"
  | .bool b => if b then "True" else "False"
  | .int n => toString n
  | .str s => "'" ++ s ++ "'"
  | .tuple vs => "(" ++ pyReprJoin vs ++ (if vs.length = 1 then ",)" else ")")
  | .list vs => "[" ++ pyReprJoin vs ++ "]"
  | .dict es => "\x7b" ++ pyReprEntries es ++ "\x7d"
  | .obj cls _ => "<" ++ cls ++ " object>"

/-- Comma-joined reprs of a list of values. -/
def pyReprJoin : List Value → String
  | [] => ""
  | [v] => v.pyRepr
  | v :: rest => v.pyRepr ++ ", " ++ pyReprJoin rest

/-- Comma-joined `'key': repr` pairs of a dict. -/
def pyReprEntries : List (String × Value) → String
  | [] => ""
  | [(k, v)] => "'" ++ k ++ "': " ++ v.pyRepr
  | (k, v) :: rest => "'" ++ k ++ "': " ++ v.pyRepr ++ ", " ++ pyReprEntries rest

end

/-- Python `str(value)`: identity on strings, `repr` otherwise (the types in
our universe all have `str` = `repr` apart from `str` itself). -/
def Value.pyStr : Value → String
  | .str s => s
  | v => v.pyRepr

/-- Exceptions raised by the binding core: the classes of
`src/dinao/binding/errors.py` that the modelled code paths raise, plus the
Python builtins (`KeyError`, `AttributeError`, `TypeError`, `IndexError`)
that the code lets escape.  `errors.py` defines no resolution-specific
error class. -/
inductive PyError where
  | keyError (key : String)
  | attributeError (attr : String)
  | typeError (msg : String)
  | indexError
  | templateError (line : String) (col : Nat)
  | missingTemplateArgumentError (msg : String)
  | badReturnTypeError (msg : String)
  | cannotInferMappingError (msg : String)
  | tooManyRowsError (msg : String)
  | tooManyValuesError (msg : String)
  deriving DecidableEq, Repr

/-! ### Template grammar (`templating.py`)

The pyparsing grammar of `Template` is translated to a recursive-descent
parser with the same language: a template is a sequence of literal runs and
placeholders `#\x7bpath\x7d` / `!\x7bpath\x7d`, where a path is one or more
`.`-separated identifiers (`[A-Za-z][A-Za-z0-9_]*`, pyparsing skips
whitespace around identifiers, dots and the closing brace inside a
placeholder).  Literal text may contain `#`, `!`, braces as "loners" as long
as no `#`-brace / `!`-brace opener sequence is formed; characters outside
pyparsing's `printables` + whitespace match nothing; an empty or
whitespace-only template fails `OneOrMore`. -/

/-- A parsed template fragment: literal SQL text, or a `TemplateParameter`
with its `kwarg_path` and `is_replace` flag (`!` placeholders replace
literally). -/
inductive Frag where
  | text (s : String)
  | param (path : List String) (isReplace : Bool)
  deriving DecidableEq, Repr

/-- The opening-brace character `{`. -/
def lbrace : Char := Char.ofNat 123

/-- The closing-brace character `}`. -/
def rbrace : Char := Char.ofNat 125

/-- Whitespace as matched by pyparsing `White()`. -/
def isWsChar (c : Char) : Bool :=
  c = ' ' || c = '\t' || c = '\n' || c = '\r'

/-- pyparsing `printables`: printable ASCII, no whitespace. -/
def isPrintableChar (c : Char) : Bool :=
  33 ≤ c.toNat && c.toNat ≤ 126

/-- ASCII letter (pyparsing `alphas`). -/
def isAsciiAlpha (c : Char) : Bool :=
  ('a' ≤ c && c ≤ 'z') || ('A' ≤ c && c ≤ 'Z')

/-- Identifier tail character (pyparsing `alphanums + "_"`). -/
def isIdentChar (c : Char) : Bool :=
  isAsciiAlpha c || ('0' ≤ c && c ≤ '9') || c = '_'

/-- Does the input start with a placeholder opener `#`-brace or `!`-brace
(`OPEN_VAR | OPEN_REP`)? -/
def startsOpener : List Char → Bool
  | c1 :: c2 :: _ => (c1 = '#' || c1 = '!') && c2 = lbrace
  | _ => false

/-- Does any position of the character list start a placeholder opener? -/
def hasOpenerSub : List Char → Bool
  | [] => false
  | c :: rest => startsOpener (c :: rest) || hasOpenerSub rest

/-- Skip leading whitespace (pyparsing's implicit whitespace skipping
inside `LOOKUP`). -/
def skipWs : List Char → List Char
  | [] => []
  | c :: rest => if isWsChar c then skipWs rest else c :: rest

/-- Take the maximal run of identifier-tail characters. -/
def takeIdentChars : List Char → (List Char × List Char)
  | [] => ([], [])
  | c :: rest =>
    if isIdentChar c then
      let p := takeIdentChars rest
      (c :: p.1, p.2)
    else ([], c :: rest)

/-- Parse one `IDENTIFIER` at the head of the input. -/
def takeIdent : List Char → Option (String × List Char)
  | [] => Option.none
  | c :: rest =>
    if isAsciiAlpha c then
      let p := takeIdentChars rest
      some (String.mk (c :: p.1), p.2)
    else Option.none

/-- Parse `ZeroOrMore("." IDENTIFIER)` after the first identifier of a
placeholder path (whitespace skipped around dots and identifiers). -/
def parseDots (fuel : Nat) (cs : List Char) (acc : List String) :
    Option (List String × List Char) :=
  match fuel with
  | 0 => Option.none
  | fuel + 1 =>
    match skipWs cs with
    | '.' :: rest =>
      match takeIdent (skipWs rest) with
      | some (ident, rm) => parseDots fuel rm (acc ++ [ident])
      | Option.none => Option.none
    | other => some (acc, other)

/-- Parse a full placeholder `LOOKUP` at the head of the input: opener,
dotted identifier path, closing brace.  Returns the fragment and the rest. -/
def parseLookup (cs : List Char) : Option (Frag × List Char) :=
  match cs with
  | c1 :: c2 :: rest =>
    if (c1 = '#' || c1 = '!') && c2 = lbrace then
      match takeIdent (skipWs rest) with
      | some (ident, rm) =>
        match parseDots (rm.length + 1) rm [ident] with
        | some (path, rm2) =>
          match rm2 with
          | c :: rm3 => if c = rbrace then some (.param path (c1 = '!'), rm3) else Option.none
          | [] => Option.none
        | Option.none => Option.none
      | Option.none => Option.none
    else Option.none
  | _ => Option.none

/-- Take the maximal literal run: whitespace, plain text and loner
characters, stopping at a placeholder opener, at a character outside
pyparsing's alphabet, or at the end. -/
def takeLiteral : List Char → (List Char × List Char)
  | [] => ([], [])
  | c :: rest =>
    if startsOpener (c :: rest) then ([], c :: rest)
    else if isWsChar c || isPrintableChar c then
      let p := takeLiteral rest
      (c :: p.1, p.2)
    else ([], c :: rest)

/-- The main grammar loop (`OneOrMore(NULL_SPACE + LOOKUP + NULL_SPACE |
SQL_FRAGMENT)` with `parseAll=True`): alternate placeholders and maximal
literal runs; on failure report the offending input position.  Adjacent
literal fragments cannot arise because literal runs are maximal, so the
string-concatenation pass of `Template.__init__` is the identity here. -/
def parseFrags (fuel : Nat) (cs : List Char) (pos : Nat) : Except Nat (List Frag) :=
  match fuel with
  | 0 => .error pos
  | fuel + 1 =>
    match cs with
    | [] => .ok []
    | c :: rest =>
      if startsOpener (c :: rest) then
        match parseLookup (c :: rest) with
        | some (frag, rm) =>
          match parseFrags fuel rm (pos + ((c :: rest).length - rm.length)) with
          | .ok fs => .ok (frag :: fs)
          | .error e => .error e
        | Option.none => .error pos
      else
        match takeLiteral (c :: rest) with
        | (tk, rm) =>
          if tk.isEmpty then .error pos
          else
            match parseFrags fuel rm (pos + tk.length) with
            | .ok fs => .ok (.text (String.mk tk) :: fs)
            | .error e => .error e

/-- Line text and 1-based column of an input offset, as carried by
`TemplateError` (`f"\x7bx.msg\x7d:\n\x7bx.line\x7d\n..."` with a caret at
`x.col`). -/
def lineColOf (s : String) (idx : Nat) : String × Nat :=
  let pre := s.data.take idx
  let colInLine := (pre.reverse.takeWhile (fun c => c ≠ '\n')).length + 1
  let lineStart := idx - (colInLine - 1)
  let lineChars := (s.data.drop lineStart).takeWhile (fun c => c ≠ '\n')
  (String.mk lineChars, colInLine)

/-- A parsed `Template`: its ordered fragment list. -/
structure Template where
  frags : List Frag
  deriving DecidableEq, Repr

/-- `Template.__init__`: parse the template, raising `TemplateError` (with
the offending line and column) on malformed input.  An empty or
whitespace-only template fails the grammar's `OneOrMore`. -/
def Template.parse (sqlTemplate : String) : Except PyError Template :=
  match parseFrags (sqlTemplate.length + 1) sqlTemplate.data 0 with
  | .error pos =>
    let lc := lineColOf sqlTemplate pos
    .error (.templateError lc.1 lc.2)
  | .ok fs =>
    match fs with
    | [] =>
      let lc := lineColOf sqlTemplate 0
      .error (.templateError lc.1 lc.2)
    | [.text t] =>
      if t.data.all isWsChar then
        let lc := lineColOf sqlTemplate 0
        .error (.templateError lc.1 lc.2)
      else .ok ⟨fs⟩
    | _ => .ok ⟨fs⟩

/-- `Template.arguments`: the path of every placeholder occurrence, in
source order (occurrences are appended, not collapsed). -/
def Template.arguments (t : Template) : List (List String) :=
  t.frags.filterMap fun f =>
    match f with
    | .param p _ => some p
    | _ => Option.none

/-! ### Mung symbols (`mung.py`, pool `mung_symbol` properties)

A pool's `mung_symbol` is either a plain string (the older backends:
`sqlite.py`, `postgres.py`, `mysql.py`, `mariadb.py`) or a
`MungSymbolProvider` instance (`sqlite/stdlib.py`, `sqlite/aiosqlite.py`,
`postgres/asyncpg.py`). -/

/-- The value passed to `Template.render` as `mung_symbol`. -/
inductive MungSymbol where
  | plain (s : String)
  | staticProvider (symbol : String)
  | numberedProvider (counter : Nat) (prefixStr : String)
  deriving DecidableEq, Repr

/-- The Python class name of the mung symbol value (as it appears in a
`TypeError` from string concatenation). -/
def MungSymbol.clsName : MungSymbol → String
  | .plain _ => "str"
  | .staticProvider _ => "StaticMungSymbolProvider"
  | .numberedProvider _ _ => "NumberedMungSymbolProvider"

/-- `MungSymbolProvider.__call__` (`mung.py`): the static provider returns
its symbol unchanged; the numbered provider returns `prefix + counter` and
increments.  A plain string is not callable. -/
def MungSymbol.callProvider : MungSymbol → Option (String × MungSymbol)
  | .plain _ => Option.none
  | .staticProvider s => some (s, .staticProvider s)
  | .numberedProvider n p => some (p ++ toString n, .numberedProvider (n + 1) p)

/-! ### Argument resolution and rendering (`templating.py`) -/

/-- Association-list lookup keyed by strings (dict key access / attribute
access on our modelled objects). -/
def assocFind (l : List (String × Value)) (k : String) : Option Value :=
  match l with
  | [] => Option.none
  | (k', v) :: rest => if k' = k then some v else assocFind rest k

/-- One step of `Template._resolve_value`:
`node[arg_name] if isinstance(node, dict) else getattr(node, arg_name)`.
A missing dict key raises `KeyError`; attribute access on anything else
raises `AttributeError` when absent. -/
def resolveStep (node : Value) (name : String) : Except PyError Value :=
  match node with
  | .dict entries =>
    match assocFind entries name with
    | some v => .ok v
    | Option.none => .error (.keyError name)
  | .obj _ attrs =>
    match assocFind attrs name with
    | some v => .ok v
    | Option.none => .error (.attributeError name)
  | _ => .error (.attributeError name)

/-- `Template._resolve_value`: walk the dotted path from the root argument
dict. -/
def Template.resolveValue (kwargPath : List String) (rootArgs : Value) :
    Except PyError Value :=
  match kwargPath with
  | [] => .ok rootArgs
  | name :: rest => do Template.resolveValue rest (← resolveStep rootArgs name)

/-- Association-list lookup keyed by placeholder paths (the per-render
`cache` dict of `Template.render`). -/
def assocFindPath {α : Type} (l : List (List String × α)) (key : List String) :
    Option α :=
  match l with
  | [] => Option.none
  | (k, v) :: rest => if k = key then some v else assocFindPath rest key

/-- Insert-or-replace into a path-keyed association list
(`cache[frag.kwarg_path] = value`). -/
def assocSetPath {α : Type} (l : List (List String × α)) (key : List String)
    (v : α) : List (List String × α) :=
  match l with
  | [] => [(key, v)]
  | (k, w) :: rest =>
    if k = key then (key, v) :: rest else (k, w) :: assocSetPath rest key v

/-- Ghost instrumentation: bump the invocation count of
`Template._resolve_value` for a path. -/
def bumpCall (l : List (List String × Nat)) (key : List String) :
    List (List String × Nat) :=
  match l with
  | [] => [(key, 1)]
  | (k, n) :: rest =>
    if k = key then (k, n + 1) :: rest else (k, n) :: bumpCall rest key

/-- Total `_resolve_value` invocations recorded for a path. -/
def callsFor (l : List (List String × Nat)) (key : List String) : Nat :=
  (assocFindPath l key).getD 0

/-- The mutable state of the `Template.render` loop: the SQL string built so
far, the parameter list, the truthiness-tested `cache` dict, and a ghost
count of `_resolve_value` invocations per path. -/
structure RenderAcc where
  munged : String
  parameters : List Value
  cache : List (List String × Value)
  resolveCalls : List (List String × Nat)

/-- Process one resolved parameter fragment of `Template.render`'s loop:
store the value in the cache (`cache[frag.kwarg_path] = value`), then either
splice `str(value)` into the SQL (`is_replace`), or append the value to the
parameter list and run `munged += mung_symbol` — a `TypeError` when
`mung_symbol` is a `MungSymbolProvider` instance rather than a `str` (the
provider is never called). -/
def renderParamAcc (mung : MungSymbol) (path : List String) (isRep : Bool)
    (acc : RenderAcc) (value : Value) (calls : List (List String × Nat)) :
    Except PyError RenderAcc :=
  let cache' := assocSetPath acc.cache path value
  if isRep then
    .ok { munged := acc.munged ++ value.pyStr, parameters := acc.parameters,
          cache := cache', resolveCalls := calls }
  else
    match mung with
    | .plain s =>
      .ok { munged := acc.munged ++ s, parameters := acc.parameters ++ [value],
            cache := cache', resolveCalls := calls }
    | m =>
      .error (.typeError
        ("can only concatenate str (not \"" ++ m.clsName ++ "\") to str"))

/-- The body of `Template.render`'s fragment loop.  For a parameter
fragment: `value = cache.get(frag.kwarg_path) or self._resolve_value(...)` —
the cache is consulted by truthiness, so a cached falsy value (as well as an
absent one) re-invokes the resolver; the ghost `resolveCalls` count is
bumped at every `_resolve_value` invocation. -/
def renderLoop (mung : MungSymbol) (kwargs : Value) :
    List Frag → RenderAcc → Except PyError RenderAcc
  | [], acc => .ok acc
  | .text t :: rest, acc =>
    renderLoop mung kwargs rest { acc with munged := acc.munged ++ t }
  | .param path isRep :: rest, acc =>
    match assocFindPath acc.cache path with
    | some v =>
      if v.truthy then
        match renderParamAcc mung path isRep acc v acc.resolveCalls with
        | .ok acc' => renderLoop mung kwargs rest acc'
        | .error e => .error e
      else
        match Template.resolveValue path kwargs with
        | .ok r =>
          match renderParamAcc mung path isRep acc r (bumpCall acc.resolveCalls path) with
          | .ok acc' => renderLoop mung kwargs rest acc'
          | .error e => .error e
        | .error e => .error e
    | Option.none =>
      match Template.resolveValue path kwargs with
      | .ok r =>
        match renderParamAcc mung path isRep acc r (bumpCall acc.resolveCalls path) with
        | .ok acc' => renderLoop mung kwargs rest acc'
        | .error e => .error e
      | .error e => .error e

/-- `Template.render(mung_symbol, kwargs)`: returns the munged SQL and the
ordered parameter tuple. -/
def Template.render (t : Template) (mungSymbol : MungSymbol) (kwargs : Value) :
    Except PyError (String × List Value) :=
  (renderLoop mungSymbol kwargs t.frags ⟨"", [], [], []⟩).map fun acc =>
    (acc.munged, acc.parameters)

/-- `Template.render` with the ghost `_resolve_value` invocation counts
exposed (same computation as `Template.render`). -/
def Template.renderCounted (t : Template) (mungSymbol : MungSymbol)
    (kwargs : Value) :
    Except PyError ((String × List Value) × List (List String × Nat)) :=
  (renderLoop mungSymbol kwargs t.frags ⟨"", [], [], []⟩).map fun acc =>
    ((acc.munged, acc.parameters), acc.resolveCalls)

/-! ### Return type hints (`typing` introspection used by `binders/base.py`)

The universe of declared return types the binding engine inspects:
`inspect.Signature.empty` (no hint), `None`, `typing.NoReturn`, the native
single-value types (`int`, `str` stand in for `NATIVE_SINGLE`), bare
`tuple` / `dict`, unsubscripted `typing.Dict`-style aliases, arbitrary
record classes, `List[X]` / `list[X]`, and `Optional[X]` (a `Union` with
exactly one non-`None` member, the only union shape `_unwrap_optional`
unwraps). -/

/-- A declared return type hint. -/
inductive PyType where
  | empty
  | noneType
  | noReturn
  | intT
  | strT
  | tupleT
  | dictT
  | typingDict
  | clazz (name : String)
  | listOf (elem : PyType)
  | optionalOf (inner : PyType)
  deriving DecidableEq, Repr

/-- The `typing.get_origin` results the inference distinguishes. -/
inductive TypeOrigin where
  | unionO
  | listO
  | dictO
  deriving DecidableEq, Repr

/-- `typing.get_origin` over our universe: subscripted lists have origin
`list`, `Optional` has origin `Union`, unsubscripted `typing.Dict`-style
aliases have origin `dict`; bare classes have no origin. -/
def PyType.getOrigin : PyType → Option TypeOrigin
  | .listOf _ => some .listO
  | .optionalOf _ => some .unionO
  | .typingDict => some .dictO
  | _ => Option.none

/-- `typing.get_args` over our universe. -/
def PyType.getArgs : PyType → List PyType
  | .listOf t => [t]
  | .optionalOf t => [t, .noneType]
  | _ => []

/-- Display name for a type hint, used in bind-time error messages. -/
def pyTypeName : PyType → String
  | .empty => "<empty>"
  | .noneType => "None"
  | .noReturn => "typing.NoReturn"
  | .intT => "int"
  | .strT => "str"
  | .tupleT => "tuple"
  | .dictT => "dict"
  | .typingDict => "typing.Dict"
  | .clazz n => n
  | .listOf t => "typing.List[" ++ pyTypeName t ++ "]"
  | .optionalOf t => "typing.Optional[" ++ pyTypeName t ++ "]"

/-- `_unwrap_optional` (`binders/base.py`): extract `X` from `Optional[X]`;
other shapes (including wider unions, which our universe does not contain)
yield `None`. -/
def unwrapOptional (t : PyType) : Option PyType :=
  match t with
  | .optionalOf inner => some inner
  | _ => Option.none

/-! ### Row mappers (`mappers.py`) -/

/-- The stock `RowMapper` implementations. -/
inductive RowMapper where
  | tupleMapper
  | dictMapper
  | singleValue
  | classMapper (cls : String)
  deriving DecidableEq, Repr

/-- `get_row_mapper` (`mappers.py`): subscripted generics are unsupported;
then `TUPLE_GENERICS` → tuple mapper, `DICT_GENERICS` → dict mapper,
`NATIVE_SINGLE` → single-value mapper, any other class → class mapper;
otherwise no mapper. -/
def get_row_mapper (rowType : PyType) : Option RowMapper :=
  if rowType.getOrigin.isSome && !rowType.getArgs.isEmpty then Option.none
  else
    match rowType with
    | .tupleT => some .tupleMapper
    | .dictT => some .dictMapper
    | .typingDict => some .dictMapper
    | .intT => some .singleValue
    | .strT => some .singleValue
    | .clazz n => some (.classMapper n)
    | _ => Option.none

/-- The dict comprehension of `DictRowMapper.__call__`:
`\x7bd.name: row[col] for col, d in enumerate(description)\x7d`; indexing
past the end of the row raises `IndexError`. -/
def zipColumns : List String → List Value → Except PyError (List (String × Value))
  | [], _ => .ok []
  | _ :: _, [] => .error .indexError
  | d :: ds, v :: vs => do .ok ((d, v) :: (← zipColumns ds vs))

/-- Apply a row mapper to a raw row and the column names of the result-set
description (`RowMapper.__call__` of each implementation).  The class
mapper constructs the target class from the column dict as keyword
arguments, giving an object whose attributes are the columns. -/
def RowMapper.applyRow : RowMapper → List Value → List String → Except PyError Value
  | .tupleMapper, row, _ => .ok (.tuple row)
  | .dictMapper, row, desc => do .ok (.dict (← zipColumns desc row))
  | .classMapper cls, row, desc => do .ok (.obj cls (← zipColumns desc row))
  | .singleValue, row, _ =>
    if row.length > 1 then
      .error (.tooManyValuesError
        ("Too many values, expected 1, got " ++ toString row.length))
    else
      match row with
      | v :: _ => .ok v
      | [] => .error .indexError

/-! ### Bound queries (`binders/base.py` 154-208, `binders/sync.py` 173-198)

A completed query's result set is its rows plus the column names of its
description; `rowcount` is the number of rows (as for the repository's
result sets over finished queries, e.g. `MockDQLCursor`). -/

/-- A query result set. -/
structure ResultSet where
  rows : List (List Value)
  description : List String

/-- `ResultSet.rowcount`. -/
def ResultSet.rowcount (rs : ResultSet) : Nat := rs.rows.length

/-- `ResultSet.fetchone` on a fresh result set: the first row, or `None`. -/
def ResultSet.fetchoneFirst (rs : ResultSet) : Option (List Value) := rs.rows.head?

/-- The return strategy chosen by `BoundQueryBase.__init__` together with
its row mapper (`_return_impl` / `_row_mapper`; the `None` strategy carries
no mapper, mirroring `returns_none` exempting the mapper check). -/
inductive QueryPlan where
  | nonePlan
  | onePlan (mapper : RowMapper)
  | manyPlan (mapper : RowMapper)
  deriving DecidableEq, Repr

/-- Look up the row mapper for a chosen row type, failing as
`BoundQueryBase.__init__` lines 206-208 do when none is found. -/
def planWith (mk : RowMapper → QueryPlan) (rowType : PyType) :
    Except PyError QueryPlan :=
  match get_row_mapper rowType with
  | some m => .ok (mk m)
  | Option.none =>
    .error (.cannotInferMappingError
      ("Unable to determine row mapper for " ++ pyTypeName rowType))

/-- `BoundQueryBase.__init__` (`binders/base.py` 154-208): default a missing
hint to `List[tuple]`, unwrap `Optional[X]`, then choose the strategy: `None`
/ `NoReturn` → no result; non-generic (bare class) → single row of that
class; unsubscripted dict generic → single row as `dict`; list generic →
many rows of the element type (or raw tuples); anything else is a bind-time
`CannotInferMappingError`. -/
def boundQueryInit (returnHint : PyType) : Except PyError QueryPlan :=
  let returnType := if returnHint = .empty then .listOf .tupleT else returnHint
  let returnType :=
    match unwrapOptional returnType with
    | some u => u
    | Option.none => returnType
  let genericType := returnType.getOrigin
  let genericArgs := returnType.getArgs
  if returnType = .noneType || returnType = .noReturn then
    .ok .nonePlan
  else if genericType = Option.none then
    planWith .onePlan returnType
  else if genericType = some .dictO && genericArgs.isEmpty then
    planWith .onePlan .dictT
  else if genericType = some .listO then
    planWith .manyPlan
      (match genericArgs with
       | t :: _ => t
       | [] => .tupleT)
  else
    .error (.cannotInferMappingError
      ("Unable to determine mapper for " ++ pyTypeName returnType))

/-- `BoundQuery._one_return` (`binders/sync.py` 176-181; identical logic in
`AsyncBoundQuery._async_one_return`): more than one row raises
`TooManyRowsError`; otherwise map the fetched row, yielding `None` when
`fetchone` returns `None` — or an empty (falsy) tuple. -/
def oneReturn (mapper : RowMapper) (results : ResultSet) : Except PyError Value :=
  if results.rowcount > 1 then
    .error (.tooManyRowsError
      ("Only expected one row, but got " ++ toString results.rowcount))
  else
    match results.fetchoneFirst with
    | some raw =>
      if !raw.isEmpty then mapper.applyRow raw results.description
      else .ok Value.none
    | Option.none => .ok Value.none

/-- The list comprehension of `BoundQuery._many_return`: map each fetched
row through the row mapper, in order. -/
def mapRows (mapper : RowMapper) (desc : List String) :
    List (List Value) → Except PyError (List Value)
  | [] => .ok []
  | row :: rest => do .ok ((← mapper.applyRow row desc) :: (← mapRows mapper desc rest))

/-- `BoundQuery._many_return`: map every fetched row. -/
def manyReturn (mapper : RowMapper) (results : ResultSet) : Except PyError Value := do
  .ok (.list (← mapRows mapper results.description results.rows))

/-- The result-mapping stage of `BoundQuery.__call__` for a declared return
hint: run `BoundQueryBase.__init__`'s inference, then apply the chosen
`_return_impl` to the result set. -/
def boundQueryCall (returnHint : PyType) (results : ResultSet) :
    Except PyError Value := do
  match ← boundQueryInit returnHint with
  | .nonePlan => .ok Value.none
  | .onePlan m => oneReturn m results
  | .manyPlan m => manyReturn m results

/-! ### Bound executions (`binders/base.py` 259-276, `binders/sync.py`
221-235) -/

/-- `BoundExecutionBase.__init__`: the declared return must be absent,
`None`, or `int`; the result records whether the call returns `None`. -/
def boundExecutionInit (returnHint : PyType) : Except PyError Bool :=
  if returnHint = .empty || returnHint = .noneType then .ok true
  else if returnHint ≠ .intT then
    .error (.badReturnTypeError
      "Bound executions can only return None or int (e.g. affected rows)")
  else .ok false

/-- The result of `BoundExecution.__call__` given the affected-row count
returned by `Connection.execute`: `None` when the declared return is
absent/`None`, else the count. -/
def boundExecutionResult (returnsNone : Bool) (affected : Int) : Value :=
  if returnsNone then Value.none else Value.int affected

/-! ### Bind-time template/signature checks (`binders/base.py` 134-143 and
the decorators of `binders/sync.py` / `async_.py`) -/

/-- `BoundSQLFunction.__init__` lines 140-143: every placeholder path's
first segment must name a declared parameter of the wrapped callable, else
`MissingTemplateArgumentError` is raised at decoration time. -/
def templateArgsCheck (args : List (List String)) (funcName : String)
    (funcParams : List String) : Except PyError Unit :=
  match args with
  | [] => .ok ()
  | path :: rest =>
    match path with
    | seg :: _ =>
      if funcParams.contains seg then templateArgsCheck rest funcName funcParams
      else
        .error (.missingTemplateArgumentError
          ("Argument '" ++ seg ++
            "' specified in template but is not an argument of " ++ funcName))
    | [] => .error .indexError

/-- The decoration-time pipeline of `FunctionBinder.execute`: parse the
template (`_make_template`), validate its arguments against the callable's
signature, then validate the declared return type.  All failures happen
when the decorator is applied, before any call. -/
def bindExecute (sql : String) (funcName : String) (funcParams : List String)
    (returnHint : PyType) : Except PyError Bool := do
  let t ← Template.parse sql
  templateArgsCheck t.arguments funcName funcParams
  boundExecutionInit returnHint

/-- The decoration-time pipeline of `FunctionBinder.query` for non-generator
return hints: parse the template, validate arguments, infer the return
strategy. -/
def bindQuery (sql : String) (funcName : String) (funcParams : List String)
    (returnHint : PyType) : Except PyError QueryPlan := do
  let t ← Template.parse sql
  templateArgsCheck t.arguments funcName funcParams
  boundQueryInit returnHint

/-! ### Connection scope (`FunctionBinder.connection`, `binders/sync.py`
139-170; `AsyncFunctionBinder.connection`, `binders/async_.py` 147-179, has
the same semantics with a per-task context variable instead of a
thread-local). -/

/-- The scope cell: whether a pool is set, the active connection (a
connection object is always truthy, so `Option.isSome` models the
`if active_cnx:` test), and the id the pool's next lease will return. -/
structure ScopeState where
  poolSet : Bool
  active : Option Nat
  nextCnx : Nat
  deriving DecidableEq, Repr

/-- Observable pool / transaction actions. -/
inductive Event where
  | lease (c : Nat)
  | commit (c : Nat)
  | rollback (c : Nat)
  | release (c : Nat)
  deriving DecidableEq, Repr

/-- Outcome of running a scoped block. -/
inductive Outcome where
  | ok
  | raised (n : Nat)
  | noPool
  deriving DecidableEq, Repr

/-- A client program over the binder: plain steps, raising an exception
(tagged so re-raising is observable), sequencing, and entering
`binder.connection()` with a body that observes the yielded connection.
Bound `execute` / `query` / `transaction` calls all enter the scope this
way. -/
inductive Prog where
  | skip
  | raiseExc (n : Nat)
  | seq (p q : Prog)
  | withConn (body : Nat → Prog)

/-- The result of running a program: outcome, final scope state, and the
emitted pool / transaction events in order. -/
structure RunResult where
  outcome : Outcome
  state : ScopeState
  events : List Event
  deriving DecidableEq, Repr

/-- Run a program against the scope, following
`FunctionBinder.connection`: no pool → `NoPoolSetError`; an active
connection is yielded as-is (no lease, no events); otherwise lease, run the
body with the new connection as the active one, then commit on success or
roll back on any exception, and in either case release and clear the cell,
re-raising the body's exception. -/
def runProg : Prog → ScopeState → RunResult
  | .skip, s => ⟨.ok, s, []⟩
  | .raiseExc n, s => ⟨.raised n, s, []⟩
  | .seq p q, s =>
    let r := runProg p s
    match r.outcome with
    | .ok =>
      let r2 := runProg q r.state
      ⟨r2.outcome, r2.state, r.events ++ r2.events⟩
    | o => ⟨o, r.state, r.events⟩
  | .withConn body, s =>
    if s.poolSet = false then ⟨.noPool, s, []⟩
    else
      match s.active with
      | some c => runProg (body c) s
      | Option.none =>
        let c := s.nextCnx
        let r := runProg (body c) { s with active := some c, nextCnx := s.nextCnx + 1 }
        match r.outcome with
        | .ok =>
          ⟨.ok, { r.state with active := Option.none },
            Event.lease c :: r.events ++ [Event.commit c, Event.release c]⟩
        | o =>
          ⟨o, { r.state with active := Option.none },
            Event.lease c :: r.events ++ [Event.rollback c, Event.release c]⟩

/-- Count events satisfying a predicate. -/
def countEv (evs : List Event) (p : Event → Bool) : Nat := (evs.filter p).length

/-- Is the event a pool lease? -/
def Event.isLease : Event → Bool
  | .lease _ => true
  | _ => false

/-- Is the event a commit? -/
def Event.isCommit : Event → Bool
  | .commit _ => true
  | _ => false

/-- Is the event a rollback? -/
def Event.isRollback : Event → Bool
  | .rollback _ => true
  | _ => false

/-- Is the event a pool release? -/
def Event.isRelease : Event → Bool
  | .release _ => true
  | _ => false

/-! ### Specification-side auxiliaries

Definitions used only to state properties about the embedding above: the
decoration-then-call composition, canonical per-occurrence parameter lists,
and the character-level predicates behind the "no residual placeholder
syntax" property. -/

/-- Parse a template (decoration time) and render it (call time) in one
step, as a bound function's `__call__` does. -/
def parseAndRender (sql : String) (mung : MungSymbol) (kwargs : Value) :
    Except PyError (String × List Value) := do
  (← Template.parse sql).render mung kwargs

/-- `parseAndRender` with ghost `_resolve_value` invocation counts. -/
def parseAndRenderCounted (sql : String) (mung : MungSymbol) (kwargs : Value) :
    Except PyError ((String × List Value) × List (List String × Nat)) := do
  (← Template.parse sql).renderCounted mung kwargs

/-- The canonical parameter list of a fragment sequence: one entry per
non-replace placeholder occurrence, in source order, each the resolution of
its own path (so a path occurring k times contributes k entries). -/
def canonicalParams (kwargs : Value) (frags : List Frag) : List Value :=
  frags.filterMap fun f =>
    match f with
    | .param p false => (Template.resolveValue p kwargs).toOption
    | _ => Option.none

/-- The number of bound-parameter (non-replace) placeholder occurrences. -/
def boundParamCount (frags : List Frag) : Nat :=
  (frags.filter fun f =>
    match f with
    | .param _ false => true
    | _ => false).length

/-- The number of placeholder occurrences (of either kind) with a given
path. -/
def occCount (frags : List Frag) (path : List String) : Nat :=
  (frags.filter fun f =>
    match f with
    | .param p _ => p = path
    | _ => false).length

/-- Does some placeholder occurrence use the given path? -/
def pathOccurs (frags : List Frag) (path : List String) : Bool :=
  frags.any fun f =>
    match f with
    | .param p _ => p = path
    | _ => false

/-- A character that can take part in no placeholder opener or closer:
not `#`, `!`, or a brace. -/
def cleanChar (c : Char) : Bool :=
  !(c = '#' || c = '!' || c = lbrace || c = rbrace)

/-- The characters a fragment contributes to the rendered SQL: literal text
verbatim; the string form of the resolved value for a replace placeholder;
the mung symbol for a bound-parameter placeholder. -/
def fragPiece (mungStr : String) (kwargs : Value) : Frag → List Char
  | .text t => t.data
  | .param p true =>
    match Template.resolveValue p kwargs with
    | .ok v => v.pyStr.data
    | .error _ => []
  | .param _ false => mungStr.data

/-- The rendered SQL of a fragment sequence, character by character. -/
def renderChars (mungStr : String) (kwargs : Value) : List Frag → List Char
  | [] => []
  | f :: rest => fragPiece mungStr kwargs f ++ renderChars mungStr kwargs rest

/-- Every literal fragment is free of placeholder-opener substrings. -/
def textsClean : List Frag → Bool
  | [] => true
  | .text t :: rest => !hasOpenerSub t.data && textsClean rest
  | _ :: rest => textsClean rest

/-- No two adjacent literal fragments. -/
def noAdjTexts : List Frag → Bool
  | .text _ :: .text _ :: _ => false
  | _ :: rest => noAdjTexts rest
  | [] => true

/-- Every placeholder occurrence contributes a non-empty piece of
opener-free characters: the mung symbol and the string forms of the
resolved values carry no `#`, `!` or brace and are non-empty (true of every
real driver marker and of ordinary identifiers/values). -/
def paramPiecesClean (mungStr : String) (kwargs : Value) (frags : List Frag) : Bool :=
  frags.all fun f =>
    match f with
    | .text _ => true
    | .param _ _ =>
      let piece := fragPiece mungStr kwargs f
      piece.all cleanChar && !piece.isEmpty

/-- A literal-run character as accepted by the grammar. -/
def validLitChar (c : Char) : Bool :=
  isWsChar c || isPrintableChar c

/-- The per-render cache is coherent: every cached value is the resolution
of its path. -/
def CacheOk (kwargs : Value) (cache : List (List String × Value)) : Prop :=
  ∀ p v, assocFindPath cache p = some v → Template.resolveValue p kwargs = .ok v

/-- The result of an outermost `binder.connection()` entry (pool set, no
active connection): lease, run the body on the fresh connection, commit or
roll back by outcome, release, clear.  `runProg` reduces to this on a fresh
entry; it is spelled out so proofs can case on the body's outcome. -/
def freshEntry (body : Nat → Prog) (s : ScopeState) : RunResult :=
  let c := s.nextCnx
  let r := runProg (body c) { s with active := some c, nextCnx := s.nextCnx + 1 }
  match r.outcome with
  | .ok =>
    ⟨.ok, { r.state with active := Option.none },
      Event.lease c :: r.events ++ [Event.commit c, Event.release c]⟩
  | o =>
    ⟨o, { r.state with active := Option.none },
      Event.lease c :: r.events ++ [Event.rollback c, Event.release c]⟩

/-! ## Theorems -/

/-- On a fresh outermost entry, `runProg` of a scoped block is exactly
`freshEntry`. -/
theorem runProg_withConn_fresh (body : Nat → Prog) (s : ScopeState)
    (hp : s.poolSet = true) (ha : s.active = Option.none) :
    runProg (.withConn body) s = freshEntry body s := by
  obtain ⟨ps, act, nx⟩ := s
  cases hp
  cases ha
  rfl

/-- Re-entering the scope while a connection is active just runs the body
on the existing connection. -/
theorem runProg_withConn_reentry (body : Nat → Prog) (s : ScopeState) (c : Nat)
    (hp : s.poolSet = true) (ha : s.active = some c) :
    runProg (.withConn body) s = runProg (body c) s := by
  obtain ⟨ps, act, nx⟩ := s
  cases hp
  cases ha
  rfl

/-- While a connection is active, running any client program leaves the
scope cell untouched and emits no pool or transaction events: every step
either avoids the scope or re-enters it and is handed the existing
connection. -/
theorem runProg_while_active (p : Prog) :
    ∀ (s : ScopeState) (c : Nat), s.poolSet = true → s.active = some c →
      (runProg p s).state = s ∧ (runProg p s).events = [] := by
  induction p with
  | skip => intro s c _ _; exact ⟨rfl, rfl⟩
  | raiseExc n => intro s c _ _; exact ⟨rfl, rfl⟩
  | seq p q ihp ihq =>
    intro s c hp ha
    have h1 := ihp s c hp ha
    have h2 := ihq s c hp ha
    simp only [runProg]
    cases hout : (runProg p s).outcome with
    | ok => simp [hout, h1.1, h1.2, h2.1, h2.2]
    | raised n => simp [hout, h1.1, h1.2]
    | noPool => simp [hout, h1.1, h1.2]
  | withConn body ih =>
    intro s c hp ha
    rw [runProg_withConn_reentry body s c hp ha]
    exact ih c s c hp ha

/-- C1: Connection scope is reentrant and depth-counted.  Part one:
re-entering `binder.connection()` while a connection is active yields the
very connection leased on the outermost entry — `runProg (body c)` receives
the identical `c` — with no new lease and no events.  Part two: on an
outermost entry, exactly one lease and one release occur; when the body
completes the events are lease-commit-release, and when any nesting level
raises they are lease-rollback-release — exactly one rollback, exactly one
release — the exception is re-raised, and the scope cell is cleared. -/
theorem connection_scope_reentrant (body : Nat → Prog) (s : ScopeState) :
    (∀ c, s.poolSet = true → s.active = some c →
      runProg (.withConn body) s = runProg (body c) s) ∧
    (∀ inner full : RunResult, s.poolSet = true → s.active = Option.none →
      inner = runProg (body s.nextCnx)
        { s with active := some s.nextCnx, nextCnx := s.nextCnx + 1 } →
      full = runProg (.withConn body) s →
      full.outcome = inner.outcome ∧
      full.state.active = Option.none ∧
      countEv full.events Event.isLease = 1 ∧
      countEv full.events Event.isRelease = 1 ∧
      (inner.outcome = .ok →
        full.events = [Event.lease s.nextCnx, Event.commit s.nextCnx,
          Event.release s.nextCnx] ∧
        countEv full.events Event.isRollback = 0) ∧
      (∀ n, inner.outcome = .raised n →
        full.outcome = .raised n ∧
        full.events = [Event.lease s.nextCnx, Event.rollback s.nextCnx,
          Event.release s.nextCnx] ∧
        countEv full.events Event.isRollback = 1 ∧
        countEv full.events Event.isCommit = 0)) := by
  constructor
  · intro c hp ha
    exact runProg_withConn_reentry body s c hp ha
  · intro inner full hp ha hi hf
    have hinner := runProg_while_active (body s.nextCnx)
      { s with active := some s.nextCnx, nextCnx := s.nextCnx + 1 } s.nextCnx hp rfl
    rw [runProg_withConn_fresh body s hp ha] at hf
    subst hi
    subst hf
    simp only [freshEntry]
    cases hout : (runProg (body s.nextCnx)
        { s with active := some s.nextCnx, nextCnx := s.nextCnx + 1 }).outcome with
    | ok =>
      rw [hinner.2]
      refine ⟨rfl, rfl,
        by simp [countEv, Event.isLease, Event.isCommit, Event.isRelease],
        by simp [countEv, Event.isLease, Event.isCommit, Event.isRelease],
        fun _ => ⟨rfl,
          by simp [countEv, Event.isRollback, Event.isLease, Event.isCommit, Event.isRelease]⟩,
        ?_⟩
      intro n hn
      exact absurd hn (by simp)
    | raised m =>
      rw [hinner.2]
      refine ⟨rfl, rfl,
        by simp [countEv, Event.isLease, Event.isRollback, Event.isRelease],
        by simp [countEv, Event.isLease, Event.isRollback, Event.isRelease],
        ?_, ?_⟩
      · intro h
        exact absurd h (by simp)
      · intro n hn
        have hmn : m = n := by injection hn
        subst hmn
        exact ⟨rfl, rfl,
          by simp [countEv, Event.isRollback, Event.isLease, Event.isRelease],
          by simp [countEv, Event.isCommit, Event.isLease, Event.isRollback, Event.isRelease]⟩
    | noPool =>
      rw [hinner.2]
      refine ⟨rfl, rfl,
        by simp [countEv, Event.isLease, Event.isRollback, Event.isRelease],
        by simp [countEv, Event.isLease, Event.isRollback, Event.isRelease],
        ?_, ?_⟩
      · intro h
        exact absurd h (by simp)
      · intro n hn
        exact absurd hn (by simp)

/-- Witness for C1: a concrete transaction body that makes one nested
scoped call and then raises exception 7; starting from a fresh binder the
trace is exactly one lease, one rollback, one release, and the exception is
re-raised. -/
theorem connection_scope_reentrant_witness :
    (runProg (.withConn fun _ => .seq (.withConn fun _ => .skip) (.raiseExc 7))
        ⟨true, Option.none, 0⟩).events =
      [Event.lease 0, Event.rollback 0, Event.release 0] ∧
    (runProg (.withConn fun _ => .seq (.withConn fun _ => .skip) (.raiseExc 7))
        ⟨true, Option.none, 0⟩).outcome = .raised 7 := by
  have h := (connection_scope_reentrant
    (fun _ => .seq (.withConn fun _ => .skip) (.raiseExc 7))
    ⟨true, Option.none, 0⟩).2 _ _ rfl rfl rfl rfl
  have h7 := h.2.2.2.2.2 7 (by rfl)
  exact ⟨h7.2.1, h7.1⟩

/-- C5 (code bug): the renderer never invokes the pool-supplied symbol
generator.  At the repository's own test input
(`test_numbered_mung_symbol_template_render`), `render` splices the
`NumberedMungSymbolProvider` object itself into the SQL string
(`munged += mung_symbol`), raising `TypeError` instead of producing
`$1, $2, $3`; the provider's `__call__`, which would have produced `$1`,
is never consulted. -/
theorem render_never_invokes_provider :
    parseAndRender "INSERT INTO my_table VALUES(#\x7ba\x7d, #\x7bb\x7d, #\x7bc\x7d)"
      (.numberedProvider 1 "$")
      (.dict [("a", .int 1), ("b", .str "two"), ("c", .int 3)]) =
    .error (.typeError
      "can only concatenate str (not \"NumberedMungSymbolProvider\") to str") ∧
    MungSymbol.callProvider (.numberedProvider 1 "$") =
      some ("$1", .numberedProvider 2 "$") := by
  exact ⟨rfl, by decide⟩

/-- C7 counterexample: the claim's example `"INSERT INTO t VALUES (#\x7bx\x7d"`
is not an unterminated placeholder — its placeholder is closed — and it
parses successfully instead of raising a parse error. -/
theorem terminated_placeholder_parses_counterexample :
    Template.parse "INSERT INTO t VALUES (#\x7bx\x7d" =
      .ok ⟨[.text "INSERT INTO t VALUES (", .param ["x"] false]⟩ := rfl

/-- C7 (amended): a genuinely unterminated placeholder — e.g.
`"INSERT INTO t VALUES (#\x7bx"`, which lacks the closing brace — fails at
decoration time with a `TemplateError` identifying the offending line and
column; and a template whose placeholder path's first segment names no
declared parameter of the wrapped callable fails at decoration time with
`MissingTemplateArgumentError`. -/
theorem bind_time_rejection_amended :
    Template.parse "INSERT INTO t VALUES (#\x7bx" =
      .error (.templateError "INSERT INTO t VALUES (#\x7bx" 23) ∧
    bindQuery "SELECT #\x7bnonexistent_param\x7d" "f" ["x"] .empty =
      .error (.missingTemplateArgumentError
        "Argument 'nonexistent_param' specified in template but is not an argument of f") ∧
    (∀ (args : List (List String)) (funcName : String) (funcParams : List String),
      (∀ p ∈ args, p ≠ []) →
      (∃ p ∈ args, ∃ seg rest, p = seg :: rest ∧ funcParams.contains seg = false) →
      ∃ msg, templateArgsCheck args funcName funcParams =
        .error (.missingTemplateArgumentError msg)) := by
  refine ⟨rfl, rfl, ?_⟩
  intro args funcName funcParams
  induction args with
  | nil =>
    intro _ hex
    obtain ⟨p, hp, _⟩ := hex
    exact absurd hp (List.not_mem_nil p)
  | cons path rest ih =>
    intro hne hex
    obtain ⟨seg0, rest0, hpath⟩ :
        ∃ seg0 rest0, path = seg0 :: rest0 := by
      cases hcase : path with
      | nil => exact absurd hcase (hne path (List.mem_cons_self path rest))
      | cons a b => exact ⟨a, b, rfl⟩
    subst hpath
    by_cases hc : funcParams.contains seg0 = true
    · have hrec : ∃ msg, templateArgsCheck rest funcName funcParams =
          .error (.missingTemplateArgumentError msg) := by
        apply ih
        · intro p hp
          exact hne p (List.mem_cons_of_mem _ hp)
        · obtain ⟨p, hp, seg, r, hpr, hcontains⟩ := hex
          rcases List.mem_cons.mp hp with heq | hmem
          · exfalso
            rw [heq] at hpr
            have : seg0 = seg := by injection hpr
            rw [this] at hc
            rw [hc] at hcontains
            exact Bool.noConfusion hcontains
          · exact ⟨p, hmem, seg, r, hpr, hcontains⟩
      obtain ⟨msg, hmsg⟩ := hrec
      refine ⟨msg, ?_⟩
      have hunfold : templateArgsCheck ((seg0 :: rest0) :: rest) funcName funcParams =
          if funcParams.contains seg0 = true then
            templateArgsCheck rest funcName funcParams
          else
            .error (.missingTemplateArgumentError
              ("Argument '" ++ seg0 ++
                "' specified in template but is not an argument of " ++ funcName)) := rfl
      rw [hunfold, if_pos hc, hmsg]
    · refine ⟨"Argument '" ++ seg0 ++
        "' specified in template but is not an argument of " ++ funcName, ?_⟩
      have hunfold : templateArgsCheck ((seg0 :: rest0) :: rest) funcName funcParams =
          if funcParams.contains seg0 = true then
            templateArgsCheck rest funcName funcParams
          else
            .error (.missingTemplateArgumentError
              ("Argument '" ++ seg0 ++
                "' specified in template but is not an argument of " ++ funcName)) := rfl
      rw [hunfold, if_neg hc]

/-- Witness for C7 (amended): the general missing-argument clause applied
to the concrete argument list of the counterexample template. -/
theorem bind_time_rejection_amended_witness :
    ∃ msg, templateArgsCheck [["nonexistent_param"]] "f" ["x"] =
      .error (.missingTemplateArgumentError msg) := by
  refine bind_time_rejection_amended.2.2 [["nonexistent_param"]] "f" ["x"] ?_ ?_
  · intro p hp
    simp only [List.mem_singleton] at hp
    rw [hp]
    exact List.cons_ne_nil _ _
  · exact ⟨["nonexistent_param"], by simp, "nonexistent_param", [], rfl, by decide⟩

/-- C8: a function bound with `execute` must declare its return type as
absent/`None` or as `int`; any other declared return type raises
`BadReturnTypeError` at bind time; at call time the bound function returns
`None` when the declared return is absent/`None` and the affected-row count
when it is `int`. -/
theorem execute_return_type_rules :
    boundExecutionInit .empty = .ok true ∧
    boundExecutionInit .noneType = .ok true ∧
    boundExecutionInit .intT = .ok false ∧
    (∀ rt : PyType, rt ≠ .empty → rt ≠ .noneType → rt ≠ .intT →
      boundExecutionInit rt = .error (.badReturnTypeError
        "Bound executions can only return None or int (e.g. affected rows)")) ∧
    (∀ n : Int, boundExecutionResult true n = Value.none ∧
      boundExecutionResult false n = Value.int n) := by
  refine ⟨rfl, rfl, rfl, ?_, fun n => ⟨rfl, rfl⟩⟩
  intro rt h1 h2 h3
  simp [boundExecutionInit, h1, h2, h3]

/-- Witness for C8: a declared `str` return is rejected at bind time. -/
theorem execute_return_type_rules_witness :
    boundExecutionInit .strT = .error (.badReturnTypeError
      "Bound executions can only return None or int (e.g. affected rows)") :=
  execute_return_type_rules.2.2.2.1 .strT (by decide) (by decide) (by decide)

/-- C9 counterexample: resolving a path whose segment is absent fails with
the Python builtin `KeyError` (dict node) or `AttributeError` (object
node), not with an `ArgumentResolutionError` — `dinao.binding.errors`
defines no such class. -/
theorem resolution_error_type_counterexample :
    Template.resolveValue ["a"] (.dict []) = .error (.keyError "a") ∧
    Template.resolveValue ["a", "missing"]
      (.dict [("a", .obj "MyArg" [("present", .int 1)])]) =
      .error (.attributeError "missing") := ⟨rfl, rfl⟩

/-- Every `resolveStep` failure is a `KeyError` or an `AttributeError`. -/
theorem resolveStep_error_kinds (node : Value) (name : String) (e : PyError)
    (h : resolveStep node name = .error e) :
    (∃ s, e = .keyError s) ∨ (∃ s, e = .attributeError s) := by
  cases node with
  | dict entries =>
    simp only [resolveStep] at h
    cases hf : assocFind entries name with
    | some v => rw [hf] at h; exact absurd h (by simp)
    | none =>
      rw [hf] at h
      have : PyError.keyError name = e := by injection h
      exact Or.inl ⟨name, this.symm⟩
  | obj cls attrs =>
    simp only [resolveStep] at h
    cases hf : assocFind attrs name with
    | some v => rw [hf] at h; exact absurd h (by simp)
    | none =>
      rw [hf] at h
      have : PyError.attributeError name = e := by injection h
      exact Or.inr ⟨name, this.symm⟩
  | none => exact Or.inr ⟨name, by injection h with h1; exact h1.symm⟩
  | bool b => exact Or.inr ⟨name, by injection h with h1; exact h1.symm⟩
  | int n => exact Or.inr ⟨name, by injection h with h1; exact h1.symm⟩
  | str s => exact Or.inr ⟨name, by injection h with h1; exact h1.symm⟩
  | tuple vs => exact Or.inr ⟨name, by injection h with h1; exact h1.symm⟩
  | list vs => exact Or.inr ⟨name, by injection h with h1; exact h1.symm⟩

/-- C9 (amended): for every dotted path and argument context, a resolution
failure is a `KeyError` (segment absent from a dict node) or an
`AttributeError` (segment absent from attribute access); the binding errors
module defines no `ArgumentResolutionError`, so no such error can be
raised. -/
theorem resolution_failure_kinds_amended :
    (∀ (path : List String) (root : Value) (e : PyError),
      Template.resolveValue path root = .error e →
      (∃ s, e = .keyError s) ∨ (∃ s, e = .attributeError s)) ∧
    (∀ (entries : List (String × Value)) (k : String),
      assocFind entries k = Option.none →
      resolveStep (.dict entries) k = .error (.keyError k)) ∧
    (∀ (cls : String) (attrs : List (String × Value)) (k : String),
      assocFind attrs k = Option.none →
      resolveStep (.obj cls attrs) k = .error (.attributeError k)) := by
  refine ⟨?_, ?_, ?_⟩
  · intro path
    induction path with
    | nil =>
      intro root e h
      exact absurd h (by simp [Template.resolveValue])
    | cons name rest ih =>
      intro root e h
      simp only [Template.resolveValue] at h
      cases hstep : resolveStep root name with
      | ok v =>
        rw [hstep] at h
        exact ih v e h
      | error e' =>
        rw [hstep] at h
        have he : e' = e := Except.error.inj h
        exact he ▸ resolveStep_error_kinds root name e' hstep
  · intro entries k hf
    have hunfold : resolveStep (.dict entries) k =
        (match assocFind entries k with
         | some v => .ok v
         | Option.none => .error (.keyError k)) := rfl
    rw [hunfold, hf]
  · intro cls attrs k hf
    have hunfold : resolveStep (.obj cls attrs) k =
        (match assocFind attrs k with
         | some v => .ok v
         | Option.none => .error (.attributeError k)) := rfl
    rw [hunfold, hf]

/-- Witness for C9 (amended): applying the amended theorem at a concrete
missing key. -/
theorem resolution_failure_kinds_witness :
    ((∃ s, PyError.keyError "b" = .keyError s) ∨
      (∃ s, PyError.keyError "b" = .attributeError s)) ∧
    resolveStep (.dict []) "b" = .error (.keyError "b") :=
  ⟨resolution_failure_kinds_amended.1 ["b"] (.dict []) (.keyError "b") rfl,
    resolution_failure_kinds_amended.2.1 [] "b" rfl⟩

/-- C10 (implicit): a query bound with a bare record return type — the
"required" single-row shape — returns `None` on zero rows, exactly as the
`Optional`-wrapped shape does; the two shapes behave identically on every
result set because `_unwrap_optional` reduces `Optional[RecordT]` to
`RecordT` before strategy selection. -/
theorem bare_record_zero_rows_none (cls : String) (desc : List String) :
    boundQueryCall (.clazz cls) ⟨[], desc⟩ = .ok Value.none ∧
    ∀ rs : ResultSet, boundQueryCall (.clazz cls) rs =
      boundQueryCall (.optionalOf (.clazz cls)) rs := by
  exact ⟨rfl, fun rs => rfl⟩

/-- `zipColumns` is `List.zip` when the description is no longer than the
row. -/
theorem zipColumns_eq_zip :
    ∀ (ds : List String) (vs : List Value), ds.length ≤ vs.length →
      zipColumns ds vs = .ok (ds.zip vs) := by
  intro ds
  induction ds with
  | nil => intro vs _; cases vs <;> rfl
  | cons d ds ih =>
    intro vs h
    cases vs with
    | nil => simp at h
    | cons v vs' =>
      have hlen : ds.length ≤ vs'.length := by simpa using h
      simp only [zipColumns, ih vs' hlen, List.zip_cons_cons]
      rfl

/-- Mapping rows through the tuple mapper is the identity on each row. -/
theorem mapRows_tuple (desc : List String) :
    ∀ rows : List (List Value),
      mapRows .tupleMapper desc rows = .ok (rows.map Value.tuple) := by
  intro rows
  induction rows with
  | nil => rfl
  | cons row rest ih => simp only [mapRows, RowMapper.applyRow, ih]; rfl

/-- C3: return-shape inference and single-row enforcement for bound
queries: no declared return type → the raw rows as a list of tuples;
`Optional[RecordT]` → `None` on zero rows, a populated record on one row,
`TooManyRowsError` on more than one row (at call time, with the row count
in the message); `list[int]` over rows `[(1,),(2,),(3,)]` → `[1, 2, 3]`. -/
theorem query_return_shape_inference :
    (∀ rs : ResultSet, boundQueryCall .empty rs = .ok (.list (rs.rows.map Value.tuple))) ∧
    (∀ (cls : String) (desc : List String),
      boundQueryCall (.optionalOf (.clazz cls)) ⟨[], desc⟩ = .ok Value.none) ∧
    (∀ (cls : String) (desc : List String) (row : List Value),
      row ≠ [] → desc.length ≤ row.length →
      boundQueryCall (.optionalOf (.clazz cls)) ⟨[row], desc⟩ =
        .ok (.obj cls (desc.zip row))) ∧
    (∀ (cls : String) (rows : List (List Value)) (desc : List String),
      1 < rows.length →
      boundQueryCall (.optionalOf (.clazz cls)) ⟨rows, desc⟩ =
        .error (.tooManyRowsError
          ("Only expected one row, but got " ++ toString rows.length))) ∧
    boundQueryCall (.listOf .intT) ⟨[[.int 1], [.int 2], [.int 3]], ["n"]⟩ =
      .ok (.list [.int 1, .int 2, .int 3]) := by
  refine ⟨?_, ?_, ?_, ?_, rfl⟩
  · intro rs
    have h1 : boundQueryCall .empty rs = manyReturn .tupleMapper rs := rfl
    rw [h1]
    simp only [manyReturn, mapRows_tuple]
    rfl
  · intro cls desc
    rfl
  · intro cls desc row hne hlen
    have h1 : boundQueryCall (.optionalOf (.clazz cls)) ⟨[row], desc⟩ =
        oneReturn (.classMapper cls) ⟨[row], desc⟩ := rfl
    rw [h1]
    cases row with
    | nil => exact absurd rfl hne
    | cons v vs =>
      simp only [oneReturn, ResultSet.rowcount, ResultSet.fetchoneFirst,
        List.length_singleton, List.head?_cons, RowMapper.applyRow,
        zipColumns_eq_zip desc (v :: vs) hlen]
      rfl
  · intro cls rows desc h
    have h1 : boundQueryCall (.optionalOf (.clazz cls)) ⟨rows, desc⟩ =
        oneReturn (.classMapper cls) ⟨rows, desc⟩ := rfl
    rw [h1]
    simp [oneReturn, ResultSet.rowcount, h]

/-- Witness for C3: the populated-record and too-many-rows clauses at
concrete inputs. -/
theorem query_return_shape_inference_witness :
    boundQueryCall (.optionalOf (.clazz "RecordT"))
        ⟨[[.int 1, .str "a"]], ["n", "s"]⟩ =
      .ok (.obj "RecordT" (["n", "s"].zip [Value.int 1, Value.str "a"])) ∧
    boundQueryCall (.optionalOf (.clazz "RecordT")) ⟨[[.int 1], [.int 2]], ["n"]⟩ =
      .error (.tooManyRowsError
        ("Only expected one row, but got " ++
          toString ([[Value.int 1], [Value.int 2]] : List (List Value)).length)) := by
  constructor
  · exact query_return_shape_inference.2.2.1 "RecordT" ["n", "s"]
      [Value.int 1, Value.str "a"] (by simp) (by simp)
  · exact query_return_shape_inference.2.2.2.1 "RecordT"
      [[Value.int 1], [Value.int 2]] ["n"] (by simp)

/-! ### Character-level lemmas for the round-trip property -/

/-- String concatenation concatenates the underlying character lists. -/
theorem strData_append (s t : String) : (s ++ t).data = s.data ++ t.data := by
  cases s
  cases t
  rfl

/-- `startsOpener` looks only at the first two characters. -/
theorem startsOpener_cons_cons (c d : Char) (tl : List Char) :
    startsOpener (c :: d :: tl) = ((c = '#' || c = '!') && d = lbrace) := rfl

/-- Unfolding lemma for `hasOpenerSub`. -/
theorem hasOpenerSub_cons (c : Char) (rest : List Char) :
    hasOpenerSub (c :: rest) = (startsOpener (c :: rest) || hasOpenerSub rest) := rfl

/-- A clean character can never begin an opener. -/
theorem startsOpener_of_clean (c : Char) (x : List Char) (hc : cleanChar c = true) :
    startsOpener (c :: x) = false := by
  simp only [cleanChar, Bool.not_eq_true', Bool.or_eq_false_iff,
    decide_eq_false_iff_not] at hc
  cases x with
  | nil => rfl
  | cons d tl =>
    rw [startsOpener_cons_cons]
    simp [hc.1.1.1, hc.1.1.2]

/-- Prepending opener-free clean characters preserves opener-freeness. -/
theorem hasOpenerSub_append_clean : ∀ (a b : List Char), a.all cleanChar = true →
    hasOpenerSub b = false → hasOpenerSub (a ++ b) = false := by
  intro a
  induction a with
  | nil =>
    intro b _ hb
    simpa using hb
  | cons c a' ih =>
    intro b ha hb
    simp only [List.all_cons, Bool.and_eq_true] at ha
    have h1 : hasOpenerSub (a' ++ b) = false := ih b ha.2 hb
    rw [List.cons_append, hasOpenerSub_cons, startsOpener_of_clean c _ ha.1, h1]
    rfl

/-- Prepending an opener-free literal run preserves opener-freeness when
the continuation starts (if at all) with a clean character. -/
theorem hasOpenerSub_append_lit : ∀ (a b : List Char), hasOpenerSub a = false →
    hasOpenerSub b = false → (∀ h, b.head? = some h → cleanChar h = true) →
    hasOpenerSub (a ++ b) = false := by
  intro a
  induction a with
  | nil =>
    intro b _ hb _
    simpa using hb
  | cons c a' ih =>
    intro b ha hb hhead
    rw [hasOpenerSub_cons, Bool.or_eq_false_iff] at ha
    have h1 : hasOpenerSub (a' ++ b) = false := ih b ha.2 hb hhead
    rw [List.cons_append, hasOpenerSub_cons, h1, Bool.or_false]
    cases a' with
    | nil =>
      simp only [List.nil_append]
      cases hb2 : b with
      | nil => rfl
      | cons h b' =>
        rw [startsOpener_cons_cons]
        have hch := hhead h (by rw [hb2]; rfl)
        simp only [cleanChar, Bool.not_eq_true', Bool.or_eq_false_iff,
          decide_eq_false_iff_not] at hch
        simp [hch.1.2]
    | cons c2 a'' =>
      rw [List.cons_append, startsOpener_cons_cons]
      rw [startsOpener_cons_cons] at ha
      exact ha.1

/-- The head of a non-empty all-clean piece followed by anything is clean. -/
theorem head_clean_of_piece (piece x : List Char) (hall : piece.all cleanChar = true)
    (hne : piece.isEmpty = false) :
    ∀ h, (piece ++ x).head? = some h → cleanChar h = true := by
  cases piece with
  | nil => simp at hne
  | cons c p' =>
    intro h hh
    simp only [List.cons_append, List.head?_cons, Option.some.injEq] at hh
    simp only [List.all_cons, Bool.and_eq_true] at hall
    exact hh ▸ hall.1

/-! Unfolding equations for the fragment predicates. -/

/-- `textsClean` ignores parameter fragments. -/
theorem textsClean_cons_param (p : List String) (b : Bool) (rest : List Frag) :
    textsClean (.param p b :: rest) = textsClean rest := rfl

/-- `textsClean` on a literal fragment. -/
theorem textsClean_cons_text (t : String) (rest : List Frag) :
    textsClean (.text t :: rest) = (!hasOpenerSub t.data && textsClean rest) := rfl

/-- `noAdjTexts` ignores a leading parameter fragment. -/
theorem noAdjTexts_cons_param (p : List String) (b : Bool) (rest : List Frag) :
    noAdjTexts (.param p b :: rest) = noAdjTexts rest := by
  cases rest with
  | nil => rfl
  | cons f fs => cases f <;> rfl

/-- `noAdjTexts` on a literal followed by a parameter. -/
theorem noAdjTexts_text_param (t : String) (p : List String) (b : Bool)
    (rest : List Frag) :
    noAdjTexts (.text t :: .param p b :: rest) = noAdjTexts (.param p b :: rest) := rfl

/-- The rendered characters of a rendered fragment sequence contain no
placeholder opener, provided literal fragments are opener-free and
non-adjacent and every placeholder piece is clean and non-empty. -/
theorem noOpener_renderChars (ms : String) (kwargs : Value) :
    ∀ frags : List Frag, textsClean frags = true → noAdjTexts frags = true →
      paramPiecesClean ms kwargs frags = true →
      hasOpenerSub (renderChars ms kwargs frags) = false := by
  intro frags
  induction frags with
  | nil => intro _ _ _; rfl
  | cons f rest ih =>
    intro htc hna hpc
    have hpc' : (paramPiecesClean ms kwargs [f] = true) ∧
        paramPiecesClean ms kwargs rest = true := by
      simp only [paramPiecesClean, List.all_cons, Bool.and_eq_true, List.all_nil,
        Bool.and_true] at hpc ⊢
      exact ⟨hpc.1, hpc.2⟩
    cases f with
    | param p b =>
      rw [textsClean_cons_param] at htc
      rw [noAdjTexts_cons_param] at hna
      have hrest := ih htc hna hpc'.2
      have hpiece : (fragPiece ms kwargs (.param p b)).all cleanChar = true ∧
          (fragPiece ms kwargs (.param p b)).isEmpty = false := by
        have h1 := hpc'.1
        simp only [paramPiecesClean, List.all_cons, List.all_nil, Bool.and_true,
          Bool.and_eq_true, Bool.not_eq_true'] at h1
        exact h1
      exact hasOpenerSub_append_clean _ _ hpiece.1 hrest
    | text t =>
      rw [textsClean_cons_text, Bool.and_eq_true, Bool.not_eq_true'] at htc
      cases rest with
      | nil =>
        have hgoal : renderChars ms kwargs [Frag.text t] = t.data ++ [] := rfl
        rw [hgoal, List.append_nil]
        exact htc.1
      | cons g rest' =>
        cases g with
        | text u =>
          rw [show noAdjTexts (.text t :: .text u :: rest') = false from rfl] at hna
          exact Bool.noConfusion hna
        | param q c =>
          rw [noAdjTexts_text_param] at hna
          have hrest := ih htc.2 hna hpc'.2
          have hpiece : (fragPiece ms kwargs (.param q c)).all cleanChar = true ∧
              (fragPiece ms kwargs (.param q c)).isEmpty = false := by
            have h1 := hpc'.2
            simp only [paramPiecesClean, List.all_cons, Bool.and_eq_true,
              Bool.not_eq_true'] at h1
            exact h1.1
          refine hasOpenerSub_append_lit _ _ htc.1 hrest ?_
          intro h hh
          have hrw : renderChars ms kwargs (.param q c :: rest') =
              fragPiece ms kwargs (.param q c) ++ renderChars ms kwargs rest' := rfl
          rw [hrw] at hh
          exact head_clean_of_piece _ _ hpiece.1 hpiece.2 h hh

/-! ### Parser invariants -/

/-- A literal run plus its remainder reconstructs the input. -/
theorem takeLiteral_append : ∀ cs : List Char,
    (takeLiteral cs).1 ++ (takeLiteral cs).2 = cs := by
  intro cs
  induction cs with
  | nil => rfl
  | cons c rest ih =>
    simp only [takeLiteral]
    split
    · rfl
    · split
      · simpa using ih
      · rfl

/-- A literal run taken by the parser contains no placeholder opener. -/
theorem takeLiteral_noOpener : ∀ cs : List Char,
    hasOpenerSub (takeLiteral cs).1 = false := by
  intro cs
  induction cs with
  | nil => rfl
  | cons c rest ih =>
    simp only [takeLiteral]
    split
    · rfl
    · split
      · rename_i hop _
        rw [Bool.not_eq_true] at hop
        simp only [hasOpenerSub_cons, ih, Bool.or_false]
        cases htk : (takeLiteral rest).1 with
        | nil => rfl
        | cons d tl =>
          have hrest : rest = d :: (tl ++ (takeLiteral rest).2) := by
            conv_lhs => rw [← takeLiteral_append rest]
            rw [htk]
            rfl
          rw [startsOpener_cons_cons]
          rw [hrest, startsOpener_cons_cons] at hop
          exact hop
      · rfl

/-- The remainder after a literal run is empty, starts with an opener, or
starts with a character outside the grammar's alphabet. -/
theorem takeLiteral_stop : ∀ cs : List Char,
    (takeLiteral cs).2 = [] ∨ startsOpener (takeLiteral cs).2 = true ∨
      (∃ d tl, (takeLiteral cs).2 = d :: tl ∧ validLitChar d = false) := by
  intro cs
  induction cs with
  | nil => exact Or.inl rfl
  | cons c rest ih =>
    simp only [takeLiteral]
    split
    · rename_i hop
      exact Or.inr (Or.inl hop)
    · split
      · exact ih
      · rename_i hval
        rw [Bool.not_eq_true] at hval
        exact Or.inr (Or.inr ⟨c, rest, rfl, hval⟩)

/-- `parseLookup` only ever produces parameter fragments. -/
theorem parseLookup_shape : ∀ (cs : List Char) (frag : Frag) (rm : List Char),
    parseLookup cs = some (frag, rm) → ∃ p b, frag = .param p b := by
  intro cs frag rm h
  unfold parseLookup at h
  split at h
  · split at h
    · split at h
      · split at h
        · split at h
          · split at h
            · exact ⟨_, _, (Prod.mk.injEq .. ▸ Option.some.inj h).1.symm⟩
            · exact Option.noConfusion h
          · exact Option.noConfusion h
        · exact Option.noConfusion h
      · exact Option.noConfusion h
    · exact Option.noConfusion h
  · exact Option.noConfusion h

/-- Parsing an empty input yields no fragments. -/
theorem parseFrags_nil (fuel pos : Nat) (fs : List Frag)
    (h : parseFrags fuel [] pos = .ok fs) : fs = [] := by
  cases fuel with
  | zero => exact Except.noConfusion h
  | succ fuel => exact (Except.ok.inj h).symm

/-- A successful parse of an input that starts with an opener yields a
parameter fragment first. -/
theorem parseFrags_ok_head_param (fuel : Nat) (cs : List Char) (pos : Nat)
    (fs : List Frag) (h : parseFrags fuel cs pos = .ok fs)
    (hop : startsOpener cs = true) :
    ∃ p b fs', fs = .param p b :: fs' := by
  cases fuel with
  | zero => exact Except.noConfusion h
  | succ fuel =>
    cases cs with
    | nil => exact Bool.noConfusion hop
    | cons c rest =>
      simp only [parseFrags] at h
      rw [if_pos hop] at h
      cases hlk : parseLookup (c :: rest) with
      | none => rw [hlk] at h; exact Except.noConfusion h
      | some fr =>
        obtain ⟨frag, rm⟩ := fr
        rw [hlk] at h
        have h' : (match parseFrags fuel rm (pos + ((c :: rest).length - rm.length)) with
            | Except.ok fs => Except.ok (frag :: fs)
            | Except.error e => (Except.error e : Except Nat (List Frag))) =
            Except.ok fs := h
        cases hrec : parseFrags fuel rm (pos + ((c :: rest).length - rm.length)) with
        | error e => rw [hrec] at h'; exact Except.noConfusion h'
        | ok fs'' =>
          rw [hrec] at h'
          obtain ⟨p, b, hpb⟩ := parseLookup_shape (c :: rest) frag rm hlk
          exact ⟨p, b, fs'', by rw [← Except.ok.inj h', hpb]⟩

/-- Invariants of a successful parse: literal fragments are opener-free and
never adjacent. -/
theorem parseFrags_ok_invariants : ∀ (fuel : Nat) (cs : List Char) (pos : Nat)
    (fs : List Frag), parseFrags fuel cs pos = .ok fs →
    textsClean fs = true ∧ noAdjTexts fs = true := by
  intro fuel
  induction fuel with
  | zero => intro cs pos fs h; exact Except.noConfusion h
  | succ fuel ih =>
    intro cs pos fs h
    cases cs with
    | nil =>
      have : fs = [] := (Except.ok.inj h).symm
      rw [this]
      exact ⟨rfl, rfl⟩
    | cons c rest =>
      simp only [parseFrags] at h
      by_cases hop : startsOpener (c :: rest) = true
      · rw [if_pos hop] at h
        cases hlk : parseLookup (c :: rest) with
        | none => rw [hlk] at h; exact Except.noConfusion h
        | some fr =>
          obtain ⟨frag, rm⟩ := fr
          rw [hlk] at h
          have h' : (match parseFrags fuel rm (pos + ((c :: rest).length - rm.length)) with
              | Except.ok fs => Except.ok (frag :: fs)
              | Except.error e => (Except.error e : Except Nat (List Frag))) =
              Except.ok fs := h
          cases hrec : parseFrags fuel rm (pos + ((c :: rest).length - rm.length)) with
          | error e => rw [hrec] at h'; exact Except.noConfusion h'
          | ok fs' =>
            rw [hrec] at h'
            have hfs : fs = frag :: fs' := (Except.ok.inj h').symm
            obtain ⟨p, b, hpb⟩ := parseLookup_shape (c :: rest) frag rm hlk
            obtain ⟨h1, h2⟩ := ih rm _ fs' hrec
            rw [hfs, hpb, textsClean_cons_param, noAdjTexts_cons_param]
            exact ⟨h1, h2⟩
      · rw [if_neg hop] at h
        rw [Bool.not_eq_true] at hop
        cases htl : takeLiteral (c :: rest) with
        | mk tk rm =>
          rw [htl] at h
          by_cases hemp : tk.isEmpty = true
          · rw [if_pos hemp] at h
            exact Except.noConfusion h
          · rw [if_neg hemp] at h
            cases hrec : parseFrags fuel rm (pos + tk.length) with
            | error e => rw [hrec] at h; exact Except.noConfusion h
            | ok fs' =>
              rw [hrec] at h
              have hfs : fs = .text (String.mk tk) :: fs' := (Except.ok.inj h).symm
              obtain ⟨h1, h2⟩ := ih rm _ fs' hrec
              have htkno : hasOpenerSub tk = false := by
                have := takeLiteral_noOpener (c :: rest)
                rw [htl] at this
                exact this
              have hshape : fs' = [] ∨ ∃ p b fs'', fs' = .param p b :: fs'' := by
                have hstop := takeLiteral_stop (c :: rest)
                rw [htl] at hstop
                rcases hstop with hrm | hrm | hrm
                · exact Or.inl (parseFrags_nil fuel _ fs' (by rw [← hrm]; exact hrec))
                · exact Or.inr (parseFrags_ok_head_param fuel rm _ fs' hrec hrm)
                · exfalso
                  obtain ⟨d, tl, hdtl, hdinv⟩ := hrm
                  have hdtl' : rm = d :: tl := hdtl
                  rw [hdtl'] at hrec
                  cases fuel with
                  | zero => exact Except.noConfusion hrec
                  | succ fuel' =>
                    simp only [parseFrags] at hrec
                    have hop2 : startsOpener (d :: tl) = false := by
                      cases tl with
                      | nil => rfl
                      | cons d2 tl' =>
                        rw [startsOpener_cons_cons]
                        have : (d = '#' : Bool) = false ∧ (d = '!' : Bool) = false := by
                          constructor <;>
                          · rw [decide_eq_false_iff_not]
                            intro hd
                            rw [hd] at hdinv
                            exact Bool.noConfusion hdinv
                        simp [this.1, this.2]
                    rw [if_neg (by rw [hop2]; exact Bool.false_ne_true)] at hrec
                    have htl2 : takeLiteral (d :: tl) = ([], d :: tl) := by
                      simp only [takeLiteral]
                      rw [if_neg (by rw [hop2]; exact Bool.false_ne_true),
                        if_neg (by rw [show (isWsChar d || isPrintableChar d) = false
                          from hdinv]; exact Bool.false_ne_true)]
                    rw [htl2] at hrec
                    have hcond : (([], d :: tl) : List Char × List Char).1.isEmpty = true := rfl
                    rw [if_pos hcond] at hrec
                    exact Except.noConfusion hrec
              rw [hfs, textsClean_cons_text]
              constructor
              · rw [Bool.and_eq_true, Bool.not_eq_true']
                exact ⟨htkno, h1⟩
              · rcases hshape with hfs' | ⟨p, b, fs'', hfs'⟩
                · rw [hfs']; rfl
                · rw [hfs', noAdjTexts_text_param, noAdjTexts_cons_param]
                  rw [hfs', noAdjTexts_cons_param] at h2
                  exact h2

/-- A successful `Template.parse` is a successful `parseFrags` of its
fragment list. -/
theorem parse_ok_frags (s : String) (t : Template)
    (h : Template.parse s = .ok t) :
    parseFrags (s.length + 1) s.data 0 = .ok t.frags := by
  unfold Template.parse at h
  cases hps : parseFrags (s.length + 1) s.data 0 with
  | error pos => rw [hps] at h; exact Except.noConfusion h
  | ok fs =>
    rw [hps] at h
    cases fs with
    | nil => exact Except.noConfusion h
    | cons f fs' =>
      cases f with
      | text t0 =>
        cases fs' with
        | nil =>
          have h' : (if t0.data.all isWsChar = true then
              Except.error (PyError.templateError (lineColOf s 0).1 (lineColOf s 0).2)
            else Except.ok (⟨[Frag.text t0]⟩ : Template)) = Except.ok t := h
          by_cases hws : t0.data.all isWsChar = true
          · rw [if_pos hws] at h'
            exact Except.noConfusion h'
          · rw [if_neg hws] at h'
            rw [← Except.ok.inj h']
        | cons g gs => rw [← Except.ok.inj h]
      | param p b => rw [← Except.ok.inj h]

/-- The literal-fragment invariants of every successfully parsed template. -/
theorem parse_literals_invariants (s : String) (t : Template)
    (h : Template.parse s = .ok t) :
    textsClean t.frags = true ∧ noAdjTexts t.frags = true :=
  parseFrags_ok_invariants (s.length + 1) s.data 0 t.frags (parse_ok_frags s t h)

/-! ### Render-loop lemmas -/

/-- What a successful render of a fragment sequence guarantees relative to
its starting accumulator: the parameters grow by exactly the canonical
per-occurrence list, the SQL grows by exactly the canonical rendered
characters, and every referenced path resolves. -/
def RenderSpec (ms : String) (kwargs : Value) (frags : List Frag)
    (acc out : RenderAcc) : Prop :=
  out.parameters = acc.parameters ++ canonicalParams kwargs frags ∧
  out.munged.data = acc.munged.data ++ renderChars ms kwargs frags ∧
  (∀ p, pathOccurs frags p = true → ∃ v, Template.resolveValue p kwargs = .ok v)

/-- Lookup after insert-or-replace. -/
theorem assocFindPath_set {α : Type} :
    ∀ (l : List (List String × α)) (k : List String) (v : α) (q : List String),
      assocFindPath (assocSetPath l k v) q =
        if q = k then some v else assocFindPath l q := by
  intro l k v
  induction l with
  | nil =>
    intro q
    by_cases hqk : q = k
    · subst hqk
      simp [assocSetPath, assocFindPath]
    · simp only [assocSetPath, assocFindPath, if_neg hqk]
      rw [if_neg (fun hkq => hqk hkq.symm)]
  | cons kv rest ih =>
    intro q
    obtain ⟨k', w⟩ := kv
    by_cases hk : k' = k
    · subst hk
      simp only [assocSetPath, if_pos rfl, assocFindPath]
      by_cases hq : k' = q
      · rw [if_pos hq, if_pos hq.symm]
      · rw [if_neg hq, if_neg (fun hqk => hq hqk.symm), if_neg hq]
    · simp only [assocSetPath, if_neg hk, assocFindPath]
      by_cases hq : k' = q
      · rw [if_pos hq, if_pos hq]
        rw [if_neg (fun hqk : q = k => hk (hq ▸ hqk))]
      · rw [if_neg hq, if_neg hq, ih q]

/-- Cache coherence is preserved by caching a freshly resolved value. -/
theorem cacheOk_set (kwargs : Value) (cache : List (List String × Value))
    (p : List String) (v : Value) (hc : CacheOk kwargs cache)
    (hv : Template.resolveValue p kwargs = .ok v) :
    CacheOk kwargs (assocSetPath cache p v) := by
  intro q w hq
  rw [assocFindPath_set] at hq
  by_cases hqp : q = p
  · rw [if_pos hqp] at hq
    have hw : v = w := Option.some.inj hq
    rw [hqp, ← hw]
    exact hv
  · rw [if_neg hqp] at hq
    exact hc q w hq

/-- The canonical parameter list of a bound-parameter occurrence whose path
resolves. -/
theorem canonicalParams_cons_bound (kwargs : Value) (p : List String) (v : Value)
    (rest : List Frag) (h : Template.resolveValue p kwargs = .ok v) :
    canonicalParams kwargs (.param p false :: rest) =
      v :: canonicalParams kwargs rest := by
  simp only [canonicalParams, List.filterMap_cons, h, Except.toOption]

/-- The rendered piece of a replace occurrence whose path resolves. -/
theorem fragPiece_rep (ms : String) (kwargs : Value) (p : List String) (v : Value)
    (h : Template.resolveValue p kwargs = .ok v) :
    fragPiece ms kwargs (.param p true) = v.pyStr.data := by
  simp only [fragPiece, h]

/-- Continuation step of the render loop for one parameter fragment with an
already-determined resolved value. -/
theorem renderLoop_param_cont (ms : String) (kwargs : Value) (path : List String)
    (isRep : Bool) (rest : List Frag) (acc out : RenderAcc) (r : Value)
    (calls : List (List String × Nat)) (hc : CacheOk kwargs acc.cache)
    (hres : Template.resolveValue path kwargs = .ok r)
    (h : (match renderParamAcc (.plain ms) path isRep acc r calls with
          | .ok acc' => renderLoop (.plain ms) kwargs rest acc'
          | .error e => .error e) = .ok out)
    (ih : ∀ acc' out', CacheOk kwargs acc'.cache →
        renderLoop (.plain ms) kwargs rest acc' = .ok out' →
        RenderSpec ms kwargs rest acc' out') :
    RenderSpec ms kwargs (.param path isRep :: rest) acc out := by
  have hcset := cacheOk_set kwargs acc.cache path r hc hres
  cases isRep with
  | true =>
    have h' : renderLoop (.plain ms) kwargs rest
        ⟨acc.munged ++ r.pyStr, acc.parameters,
          assocSetPath acc.cache path r, calls⟩ = .ok out := h
    obtain ⟨hp, hm, hres'⟩ := ih _ out hcset h'
    refine ⟨hp, ?_, ?_⟩
    · rw [hm, strData_append]
      have hrc : renderChars ms kwargs (.param path true :: rest) =
          fragPiece ms kwargs (.param path true) ++ renderChars ms kwargs rest := rfl
      rw [hrc, fragPiece_rep ms kwargs path r hres, List.append_assoc]
    · intro p hp2
      by_cases hpe : path = p
      · exact ⟨r, hpe ▸ hres⟩
      · apply hres' p
        have : pathOccurs (.param path true :: rest) p =
            (decide (path = p) || pathOccurs rest p) := rfl
        rw [this] at hp2
        simpa [hpe] using hp2
  | false =>
    have h' : renderLoop (.plain ms) kwargs rest
        ⟨acc.munged ++ ms, acc.parameters ++ [r],
          assocSetPath acc.cache path r, calls⟩ = .ok out := h
    obtain ⟨hp, hm, hres'⟩ := ih _ out hcset h'
    refine ⟨?_, ?_, ?_⟩
    · rw [hp, canonicalParams_cons_bound kwargs path r rest hres, List.append_assoc]
      rfl
    · rw [hm, strData_append]
      have hrc : renderChars ms kwargs (.param path false :: rest) =
          ms.data ++ renderChars ms kwargs rest := rfl
      rw [hrc, List.append_assoc]
    · intro p hp2
      by_cases hpe : path = p
      · exact ⟨r, hpe ▸ hres⟩
      · apply hres' p
        have : pathOccurs (.param path false :: rest) p =
            (decide (path = p) || pathOccurs rest p) := rfl
        rw [this] at hp2
        simpa [hpe] using hp2

/-- The render workhorse: a successful render over any fragment sequence
satisfies `RenderSpec`. -/
theorem renderLoop_ok_spec (ms : String) (kwargs : Value) :
    ∀ (frags : List Frag) (acc out : RenderAcc),
      CacheOk kwargs acc.cache →
      renderLoop (.plain ms) kwargs frags acc = .ok out →
      RenderSpec ms kwargs frags acc out := by
  intro frags
  induction frags with
  | nil =>
    intro acc out hc h
    have hout : acc = out := Except.ok.inj h
    subst hout
    refine ⟨by simp [canonicalParams], by simp [renderChars], ?_⟩
    intro p hp
    exact absurd hp (by simp [pathOccurs])
  | cons f rest ih =>
    intro acc out hc h
    cases f with
    | text t =>
      have h' : renderLoop (.plain ms) kwargs rest
          { acc with munged := acc.munged ++ t } = .ok out := h
      obtain ⟨hp, hm, hres⟩ := ih { acc with munged := acc.munged ++ t } out hc h'
      refine ⟨hp, ?_, fun p hp2 => hres p hp2⟩
      rw [hm]
      have hrc : renderChars ms kwargs (.text t :: rest) =
          t.data ++ renderChars ms kwargs rest := rfl
      rw [hrc]
      have : ({ acc with munged := acc.munged ++ t } : RenderAcc).munged.data =
          acc.munged.data ++ t.data := strData_append acc.munged t
      rw [this, List.append_assoc]
    | param path isRep =>
      simp only [renderLoop] at h
      cases hfind : assocFindPath acc.cache path with
      | some v =>
        rw [hfind] at h
        have h1 : (if v.truthy = true then
            (match renderParamAcc (.plain ms) path isRep acc v acc.resolveCalls with
             | .ok acc' => renderLoop (.plain ms) kwargs rest acc'
             | .error e => .error e)
          else
            (match Template.resolveValue path kwargs with
             | .ok r =>
               (match renderParamAcc (.plain ms) path isRep acc r
                   (bumpCall acc.resolveCalls path) with
                | .ok acc' => renderLoop (.plain ms) kwargs rest acc'
                | .error e => .error e)
             | .error e => .error e)) = .ok out := h
        by_cases htr : v.truthy = true
        · rw [if_pos htr] at h1
          exact renderLoop_param_cont ms kwargs path isRep rest acc out v
            acc.resolveCalls hc (hc path v hfind) h1 (fun a o => ih a o)
        · rw [if_neg htr] at h1
          cases hres : Template.resolveValue path kwargs with
          | error e =>
            rw [hres] at h1
            exact Except.noConfusion h1
          | ok r =>
            rw [hres] at h1
            exact renderLoop_param_cont ms kwargs path isRep rest acc out r
              (bumpCall acc.resolveCalls path) hc hres h1 (fun a o => ih a o)
      | none =>
        rw [hfind] at h
        have h1 : (match Template.resolveValue path kwargs with
            | .ok r =>
              (match renderParamAcc (.plain ms) path isRep acc r
                  (bumpCall acc.resolveCalls path) with
               | .ok acc' => renderLoop (.plain ms) kwargs rest acc'
               | .error e => .error e)
            | .error e => .error e) = .ok out := h
        cases hres : Template.resolveValue path kwargs with
        | error e =>
          rw [hres] at h1
          exact Except.noConfusion h1
        | ok r =>
          rw [hres] at h1
          exact renderLoop_param_cont ms kwargs path isRep rest acc out r
            (bumpCall acc.resolveCalls path) hc hres h1 (fun a o => ih a o)

/-! ### Resolver invocation counts (memoization) -/

/-- What a successful render guarantees about `_resolve_value` invocation
counts for one fixed path `q` whose canonical value is `vq`: a truthy value
is resolved at most once more (and not at all if it is already cached); a
falsy value is re-resolved at every occurrence. -/
def CountSpec (q : List String) (vq : Value) (frags : List Frag)
    (acc out : RenderAcc) : Prop :=
  (vq.truthy = true →
    callsFor out.resolveCalls q = callsFor acc.resolveCalls q +
      (if occCount frags q = 0 ∨ (assocFindPath acc.cache q).isSome = true
       then 0 else 1)) ∧
  (vq.truthy = false →
    callsFor out.resolveCalls q = callsFor acc.resolveCalls q + occCount frags q)

/-- Bumping a path's count increments exactly that path's count. -/
theorem callsFor_bump_self : ∀ (l : List (List String × Nat)) (k : List String),
    callsFor (bumpCall l k) k = callsFor l k + 1 := by
  intro l k
  induction l with
  | nil => simp [bumpCall, callsFor, assocFindPath]
  | cons kv rest ih =>
    obtain ⟨k', n⟩ := kv
    by_cases hk : k' = k
    · subst hk
      simp [bumpCall, callsFor, assocFindPath]
    · simp only [bumpCall, if_neg hk, callsFor, assocFindPath, if_neg hk]
      exact ih

/-- Bumping one path leaves other paths' counts unchanged. -/
theorem callsFor_bump_other : ∀ (l : List (List String × Nat)) (k q : List String),
    q ≠ k → callsFor (bumpCall l k) q = callsFor l q := by
  intro l k q hqk
  induction l with
  | nil =>
    simp only [bumpCall, callsFor, assocFindPath]
    rw [if_neg (fun h : k = q => hqk h.symm)]
  | cons kv rest ih =>
    obtain ⟨k', n⟩ := kv
    by_cases hk : k' = k
    · subst hk
      simp only [bumpCall, if_pos rfl, callsFor, assocFindPath]
      rw [if_neg (fun h : k' = q => hqk h.symm), if_neg (fun h : k' = q => hqk h.symm)]
    · simp only [bumpCall, if_neg hk, callsFor, assocFindPath]
      by_cases hq : k' = q
      · rw [if_pos hq, if_pos hq]
      · rw [if_neg hq, if_neg hq]
        exact ih

/-- Occurrence count over a parameter fragment. -/
theorem occCount_cons_param (p : List String) (b : Bool) (rest : List Frag)
    (q : List String) :
    occCount (.param p b :: rest) q = (if p = q then 1 else 0) + occCount rest q := by
  by_cases h : p = q
  · simp [occCount, List.filter_cons, h, Nat.add_comm]
  · simp [occCount, List.filter_cons, h]

/-- A successful continuation after a parameter fragment runs the rest of
the loop from an accumulator whose cache has the resolved value stored and
whose counts are the given ones. -/
theorem renderParamAcc_run (ms : String) (kwargs : Value) (path : List String)
    (isRep : Bool) (rest : List Frag) (acc out : RenderAcc) (r : Value)
    (calls : List (List String × Nat))
    (h : (match renderParamAcc (.plain ms) path isRep acc r calls with
          | .ok acc' => renderLoop (.plain ms) kwargs rest acc'
          | .error e => .error e) = .ok out) :
    ∃ acc', renderLoop (.plain ms) kwargs rest acc' = .ok out ∧
      acc'.cache = assocSetPath acc.cache path r ∧ acc'.resolveCalls = calls := by
  cases isRep with
  | true =>
    exact ⟨⟨acc.munged ++ r.pyStr, acc.parameters,
      assocSetPath acc.cache path r, calls⟩, h, rfl, rfl⟩
  | false =>
    exact ⟨⟨acc.munged ++ ms, acc.parameters ++ [r],
      assocSetPath acc.cache path r, calls⟩, h, rfl, rfl⟩

/-- The memoization count workhorse: on every successful render, a path
with a truthy canonical value is resolved at most once (never when already
cached), and a path with a falsy canonical value is resolved once per
occurrence. -/
theorem renderLoop_counts (ms : String) (kwargs : Value) (q : List String)
    (vq : Value) (hq : Template.resolveValue q kwargs = .ok vq) :
    ∀ (frags : List Frag) (acc out : RenderAcc), CacheOk kwargs acc.cache →
      renderLoop (.plain ms) kwargs frags acc = .ok out →
      CountSpec q vq frags acc out := by
  intro frags
  induction frags with
  | nil =>
    intro acc out _ h
    have hout : acc = out := Except.ok.inj h
    subst hout
    constructor
    · intro _
      simp [occCount]
    · intro _
      rfl
  | cons f rest ih =>
    intro acc out hc h
    cases f with
    | text t =>
      have h' : renderLoop (.plain ms) kwargs rest
          { acc with munged := acc.munged ++ t } = .ok out := h
      exact ih { acc with munged := acc.munged ++ t } out hc h'
    | param path isRep =>
      simp only [renderLoop] at h
      cases hfind : assocFindPath acc.cache path with
      | some v =>
        rw [hfind] at h
        have h1 : (if v.truthy = true then
            (match renderParamAcc (.plain ms) path isRep acc v acc.resolveCalls with
             | .ok acc' => renderLoop (.plain ms) kwargs rest acc'
             | .error e => .error e)
          else
            (match Template.resolveValue path kwargs with
             | .ok r =>
               (match renderParamAcc (.plain ms) path isRep acc r
                   (bumpCall acc.resolveCalls path) with
                | .ok acc' => renderLoop (.plain ms) kwargs rest acc'
                | .error e => .error e)
             | .error e => .error e)) = .ok out := h
        have hvres : Template.resolveValue path kwargs = .ok v := hc path v hfind
        by_cases htr : v.truthy = true
        · rw [if_pos htr] at h1
          obtain ⟨acc', h', hcache, hcalls⟩ :=
            renderParamAcc_run ms kwargs path isRep rest acc out v acc.resolveCalls h1
          have hspec := ih acc' out
            (by rw [hcache]; exact cacheOk_set kwargs acc.cache path v hc hvres) h'
          rw [CountSpec, hcache, hcalls] at hspec
          by_cases hpq : path = q
          · subst hpq
            have hveq : v = vq := Except.ok.inj (hvres.symm.trans hq)
            subst hveq
            constructor
            · intro _
              rw [if_pos (Or.inr (by simp [hfind]))]
              have := hspec.1 htr
              rw [if_pos (Or.inr (by simp [assocFindPath_set]))] at this
              exact this
            · intro hfalse
              rw [htr] at hfalse
              exact Bool.noConfusion hfalse
          · have hfindq : assocFindPath (assocSetPath acc.cache path v) q =
                assocFindPath acc.cache q := by
              rw [assocFindPath_set, if_neg (fun hh : q = path => hpq hh.symm)]
            have hocc : occCount (.param path isRep :: rest) q = occCount rest q := by
              rw [occCount_cons_param, if_neg hpq, Nat.zero_add]
            constructor
            · intro htq
              have := hspec.1 htq
              rw [hfindq] at this
              rw [hocc]
              exact this
            · intro htq
              have := hspec.2 htq
              rw [hocc]
              exact this
        · rw [if_neg htr] at h1
          rw [Bool.not_eq_true] at htr
          cases hres : Template.resolveValue path kwargs with
          | error e =>
            rw [hres] at h1
            exact Except.noConfusion h1
          | ok r =>
            rw [hres] at h1
            obtain ⟨acc', h', hcache, hcalls⟩ := renderParamAcc_run ms kwargs path
              isRep rest acc out r (bumpCall acc.resolveCalls path) h1
            have hreq : r = v := Except.ok.inj (hres.symm.trans hvres)
            subst hreq
            have hspec := ih acc' out
              (by rw [hcache]; exact cacheOk_set kwargs acc.cache path r hc hres) h'
            rw [CountSpec, hcache, hcalls] at hspec
            by_cases hpq : path = q
            · subst hpq
              have hveq : r = vq := Except.ok.inj (hres.symm.trans hq)
              subst hveq
              constructor
              · intro htq
                rw [htq] at htr
                exact Bool.noConfusion htr
              · intro _
                have := hspec.2 (by rw [htr])
                rw [callsFor_bump_self] at this
                rw [occCount_cons_param, if_pos rfl, this]
                omega
            · have hfindq : assocFindPath (assocSetPath acc.cache path r) q =
                  assocFindPath acc.cache q := by
                rw [assocFindPath_set, if_neg (fun hh : q = path => hpq hh.symm)]
              have hocc : occCount (.param path isRep :: rest) q = occCount rest q := by
                rw [occCount_cons_param, if_neg hpq, Nat.zero_add]
              have hbq := callsFor_bump_other acc.resolveCalls path q
                (fun hh => hpq hh.symm)
              constructor
              · intro htq
                have := hspec.1 htq
                rw [hfindq, hbq] at this
                rw [hocc]
                exact this
              · intro htq
                have := hspec.2 htq
                rw [hbq] at this
                rw [hocc]
                exact this
      | none =>
        rw [hfind] at h
        have h1 : (match Template.resolveValue path kwargs with
            | .ok r =>
              (match renderParamAcc (.plain ms) path isRep acc r
                  (bumpCall acc.resolveCalls path) with
               | .ok acc' => renderLoop (.plain ms) kwargs rest acc'
               | .error e => .error e)
            | .error e => .error e) = .ok out := h
        cases hres : Template.resolveValue path kwargs with
        | error e =>
          rw [hres] at h1
          exact Except.noConfusion h1
        | ok r =>
          rw [hres] at h1
          obtain ⟨acc', h', hcache, hcalls⟩ := renderParamAcc_run ms kwargs path
            isRep rest acc out r (bumpCall acc.resolveCalls path) h1
          have hspec := ih acc' out
            (by rw [hcache]; exact cacheOk_set kwargs acc.cache path r hc hres) h'
          rw [CountSpec, hcache, hcalls] at hspec
          by_cases hpq : path = q
          · subst hpq
            have hveq : r = vq := Except.ok.inj (hres.symm.trans hq)
            subst hveq
            constructor
            · intro htq
              have := hspec.1 htq
              rw [if_pos (Or.inr (by simp [assocFindPath_set]))] at this
              rw [callsFor_bump_self] at this
              rw [this]
              have hoccpos : occCount (.param path isRep :: rest) path ≠ 0 := by
                rw [occCount_cons_param, if_pos rfl]
                omega
              rw [if_neg (by
                intro hor
                rcases hor with hz | hs
                · exact hoccpos hz
                · rw [hfind] at hs
                  exact Bool.noConfusion hs)]
            · intro htq
              have := hspec.2 htq
              rw [callsFor_bump_self] at this
              rw [occCount_cons_param, if_pos rfl, this]
              omega
          · have hfindq : assocFindPath (assocSetPath acc.cache path r) q =
                assocFindPath acc.cache q := by
              rw [assocFindPath_set, if_neg (fun hh : q = path => hpq hh.symm)]
            have hocc : occCount (.param path isRep :: rest) q = occCount rest q := by
              rw [occCount_cons_param, if_neg hpq, Nat.zero_add]
            have hbq := callsFor_bump_other acc.resolveCalls path q
              (fun hh => hpq hh.symm)
            constructor
            · intro htq
              have := hspec.1 htq
              rw [hfindq, hbq] at this
              rw [hocc]
              exact this
            · intro htq
              have := hspec.2 htq
              rw [hbq] at this
              rw [hocc]
              exact this

/-- The empty cache is coherent. -/
theorem cacheOk_nil (kwargs : Value) : CacheOk kwargs [] :=
  fun _ _ h => Option.noConfusion h

/-- Unwrap a successful `Template.render` into its loop run. -/
theorem render_ok_loop (t : Template) (ms : String) (kwargs : Value)
    (sql : String) (params : List Value)
    (h : t.render (.plain ms) kwargs = .ok (sql, params)) :
    ∃ out, renderLoop (.plain ms) kwargs t.frags ⟨"", [], [], []⟩ = .ok out ∧
      out.munged = sql ∧ out.parameters = params := by
  unfold Template.render at h
  cases hl : renderLoop (.plain ms) kwargs t.frags ⟨"", [], [], []⟩ with
  | error e =>
    rw [hl] at h
    exact Except.noConfusion h
  | ok out =>
    rw [hl] at h
    have hp : (out.munged, out.parameters) = (sql, params) := Except.ok.inj h
    exact ⟨out, rfl, congrArg Prod.fst hp, congrArg Prod.snd hp⟩

/-- Unwrap a successful `Template.renderCounted` into its loop run. -/
theorem renderCounted_ok_loop (t : Template) (ms : String) (kwargs : Value)
    (res : (String × List Value) × List (List String × Nat))
    (h : t.renderCounted (.plain ms) kwargs = .ok res) :
    ∃ out, renderLoop (.plain ms) kwargs t.frags ⟨"", [], [], []⟩ = .ok out ∧
      res.1.2 = out.parameters ∧ res.2 = out.resolveCalls := by
  unfold Template.renderCounted at h
  cases hl : renderLoop (.plain ms) kwargs t.frags ⟨"", [], [], []⟩ with
  | error e =>
    rw [hl] at h
    exact Except.noConfusion h
  | ok out =>
    rw [hl] at h
    have hp : ((out.munged, out.parameters), out.resolveCalls) = res := Except.ok.inj h
    refine ⟨out, rfl, ?_, ?_⟩
    · rw [← hp]
    · rw [← hp]

/-- Unfolding lemma for `pathOccurs`. -/
theorem pathOccurs_cons (f : Frag) (rest : List Frag) (p : List String) :
    pathOccurs (f :: rest) p =
      ((match f with
        | .param pp _ => decide (pp = p)
        | _ => false) || pathOccurs rest p) := rfl

/-- When every referenced path resolves, the canonical parameter list has
one entry per bound-parameter occurrence. -/
theorem canonicalParams_length (kwargs : Value) :
    ∀ frags : List Frag,
      (∀ p, pathOccurs frags p = true → ∃ v, Template.resolveValue p kwargs = .ok v) →
      (canonicalParams kwargs frags).length = boundParamCount frags := by
  intro frags
  induction frags with
  | nil => intro _; rfl
  | cons f rest ih =>
    intro hres
    have hrest : ∀ p, pathOccurs rest p = true →
        ∃ v, Template.resolveValue p kwargs = .ok v := by
      intro p hp
      apply hres p
      rw [pathOccurs_cons, hp, Bool.or_true]
    cases f with
    | text t => exact ih hrest
    | param p b =>
      cases b with
      | true => exact ih hrest
      | false =>
        obtain ⟨v, hv⟩ := hres p (by
          rw [pathOccurs_cons]
          simp)
        rw [canonicalParams_cons_bound kwargs p v rest hv]
        have hb : boundParamCount (.param p false :: rest) =
            boundParamCount rest + 1 := by
          simp [boundParamCount, List.filter_cons]
        rw [hb]
        simp [List.length_cons, ih hrest]

/-- C2: for every successfully parsed template, render emits one parameter
value per `#` placeholder occurrence, in left-to-right source order (a path
occurring k times contributes its value k times, never deduplicated); the
rendered SQL contains no residual placeholder-opener syntax (given that the
driver marker and the spliced value strings are themselves non-empty and
free of `#`/`!`/brace characters, as every real marker and identifier is);
and the spec's concrete scenario renders exactly as stated. -/
theorem template_render_roundtrip :
    (∀ (s : String) (t : Template) (ms : String) (kwargs : Value) (sql : String)
        (params : List Value),
      Template.parse s = .ok t →
      t.render (.plain ms) kwargs = .ok (sql, params) →
      params = canonicalParams kwargs t.frags) ∧
    (∀ (s : String) (t : Template) (ms : String) (kwargs : Value) (sql : String)
        (params : List Value),
      Template.parse s = .ok t →
      t.render (.plain ms) kwargs = .ok (sql, params) →
      paramPiecesClean ms kwargs t.frags = true →
      hasOpenerSub sql.data = false) ∧
    parseAndRender
      "SELECT name, value FROM data WHERE name LIKE #\x7bterm\x7d LIMIT #\x7blimit\x7d"
      (.plain "?") (.dict [("term", .str "a%"), ("limit", .int 5)]) =
      .ok ("SELECT name, value FROM data WHERE name LIKE ? LIMIT ?",
        [.str "a%", .int 5]) := by
  refine ⟨?_, ?_, rfl⟩
  · intro s t ms kwargs sql params _ hrender
    obtain ⟨out, hl, _, hp⟩ := render_ok_loop t ms kwargs sql params hrender
    obtain ⟨hparams, _, _⟩ :=
      renderLoop_ok_spec ms kwargs t.frags _ out (cacheOk_nil kwargs) hl
    rw [← hp, hparams]
    rfl
  · intro s t ms kwargs sql params hparse hrender hclean
    obtain ⟨out, hl, hm, _⟩ := render_ok_loop t ms kwargs sql params hrender
    obtain ⟨_, hmunge, _⟩ :=
      renderLoop_ok_spec ms kwargs t.frags _ out (cacheOk_nil kwargs) hl
    obtain ⟨htc, hna⟩ := parse_literals_invariants s t hparse
    have hsql : sql.data = renderChars ms kwargs t.frags := by
      rw [← hm, hmunge]
      rfl
    rw [hsql]
    exact noOpener_renderChars ms kwargs t.frags htc hna hclean

/-- Witness for C2: the parameter-order and no-residual clauses applied to
the spec's concrete scenario. -/
theorem template_render_roundtrip_witness :
    [Value.str "a%", Value.int 5] =
      canonicalParams (.dict [("term", .str "a%"), ("limit", .int 5)])
        [.text "SELECT name, value FROM data WHERE name LIKE ",
          .param ["term"] false, .text " LIMIT ", .param ["limit"] false] ∧
    hasOpenerSub ("SELECT name, value FROM data WHERE name LIKE ? LIMIT ?").data =
      false := by
  constructor
  · exact template_render_roundtrip.1
      "SELECT name, value FROM data WHERE name LIKE #\x7bterm\x7d LIMIT #\x7blimit\x7d"
      ⟨[.text "SELECT name, value FROM data WHERE name LIKE ",
        .param ["term"] false, .text " LIMIT ", .param ["limit"] false]⟩
      "?" (.dict [("term", .str "a%"), ("limit", .int 5)])
      "SELECT name, value FROM data WHERE name LIKE ? LIMIT ?"
      [.str "a%", .int 5] rfl rfl
  · exact template_render_roundtrip.2.1
      "SELECT name, value FROM data WHERE name LIKE #\x7bterm\x7d LIMIT #\x7blimit\x7d"
      ⟨[.text "SELECT name, value FROM data WHERE name LIKE ",
        .param ["term"] false, .text " LIMIT ", .param ["limit"] false]⟩
      "?" (.dict [("term", .str "a%"), ("limit", .int 5)])
      "SELECT name, value FROM data WHERE name LIKE ? LIMIT ?"
      [.str "a%", .int 5] rfl rfl rfl

/-- C6: a `!`-placeholder splices the string form of its resolved value
directly into the SQL and contributes no parameter slot: the spec's
concrete scenario renders exactly as stated, and in general the parameter
list of any successful render has exactly one entry per non-replace
occurrence (so replace occurrences contribute none). -/
theorem literal_substitution_no_slot :
    parseAndRender "SELECT * FROM t WHERE !\x7bcol\x7d = #\x7bval\x7d"
      (.plain "%s") (.dict [("col", .str "name"), ("val", .str "x")]) =
      .ok ("SELECT * FROM t WHERE name = %s", [.str "x"]) ∧
    (∀ (t : Template) (ms : String) (kwargs : Value) (sql : String)
        (params : List Value),
      t.render (.plain ms) kwargs = .ok (sql, params) →
      params = canonicalParams kwargs t.frags ∧
      params.length = boundParamCount t.frags) := by
  refine ⟨rfl, ?_⟩
  intro t ms kwargs sql params h
  obtain ⟨out, hl, _, hp⟩ := render_ok_loop t ms kwargs sql params h
  obtain ⟨hparams, _, hres⟩ :=
    renderLoop_ok_spec ms kwargs t.frags _ out (cacheOk_nil kwargs) hl
  have hcan : params = canonicalParams kwargs t.frags := by
    rw [← hp, hparams]
    rfl
  refine ⟨hcan, ?_⟩
  rw [hcan]
  exact canonicalParams_length kwargs t.frags hres

/-- Witness for C6: the general clause applied to the concrete scenario's
parsed template. -/
theorem literal_substitution_no_slot_witness :
    [Value.str "x"] =
      canonicalParams (.dict [("col", .str "name"), ("val", .str "x")])
        [.text "SELECT * FROM t WHERE ", .param ["col"] true,
          .text " = ", .param ["val"] false] ∧
    ([Value.str "x"] : List Value).length =
      boundParamCount [.text "SELECT * FROM t WHERE ", .param ["col"] true,
        .text " = ", .param ["val"] false] := by
  exact literal_substitution_no_slot.2
    ⟨[.text "SELECT * FROM t WHERE ", .param ["col"] true,
      .text " = ", .param ["val"] false]⟩
    "%s" (.dict [("col", .str "name"), ("val", .str "x")])
    "SELECT * FROM t WHERE name = %s" [.str "x"] rfl

/-- C4 counterexample: rendering `"#\x7ba\x7d #\x7ba\x7d"` with the falsy
argument `a = 0` invokes `_resolve_value` twice for the single distinct
path `a` — the cache is consulted by truthiness (`cache.get(path) or ...`),
so a cached falsy value does not count as cached. -/
theorem memoization_falsy_counterexample :
    parseAndRenderCounted "#\x7ba\x7d #\x7ba\x7d" (.plain "?")
      (.dict [("a", .int 0)]) =
      .ok (("? ?", [.int 0, .int 0]), [(["a"], 2)]) ∧
    1 < callsFor [(["a"], 2)] ["a"] := ⟨rfl, by decide⟩

/-- C4 (amended): within a single render call, resolution is memoized per
distinct path for truthy values: every occurrence of a path yields the same
value (the parameter list is the canonical per-occurrence list), a path
whose resolved value is truthy invokes the underlying lookup at most once,
and a path whose resolved value is falsy (0, empty string, `None`, …)
re-invokes the lookup once per occurrence. -/
theorem render_memoization_amended
    (t : Template) (ms : String) (kwargs : Value)
    (res : (String × List Value) × List (List String × Nat))
    (h : t.renderCounted (.plain ms) kwargs = .ok res) :
    res.1.2 = canonicalParams kwargs t.frags ∧
    (∀ (q : List String) (v : Value), Template.resolveValue q kwargs = .ok v →
      (v.truthy = true → callsFor res.2 q ≤ 1) ∧
      (v.truthy = false → callsFor res.2 q = occCount t.frags q)) := by
  obtain ⟨out, hl, hp, hcalls⟩ := renderCounted_ok_loop t ms kwargs res h
  obtain ⟨hparams, _, _⟩ :=
    renderLoop_ok_spec ms kwargs t.frags _ out (cacheOk_nil kwargs) hl
  constructor
  · rw [hp, hparams]
    rfl
  · intro q v hqv
    have hcount := renderLoop_counts ms kwargs q v hqv t.frags _ out (cacheOk_nil kwargs) hl
    have h0 : callsFor ([] : List (List String × Nat)) q = 0 := rfl
    constructor
    · intro htr
      have hc1 := hcount.1 htr
      rw [h0, Nat.zero_add] at hc1
      rw [hcalls, hc1]
      split
      · omega
      · omega
    · intro htr
      have hc2 := hcount.2 htr
      rw [h0, Nat.zero_add] at hc2
      rw [hcalls, hc2]

/-- Witness for C4 (amended): with the truthy argument `a = 7` the same
doubled-path template resolves `a` only once. -/
theorem render_memoization_amended_witness :
    callsFor [((["a"] : List String), 1)] ["a"] ≤ 1 ∧
    ([Value.int 7, Value.int 7] =
      canonicalParams (.dict [("a", .int 7)])
        [.param ["a"] false, .text " ", .param ["a"] false]) := by
  have h := render_memoization_amended
    ⟨[.param ["a"] false, .text " ", .param ["a"] false]⟩ "?"
    (.dict [("a", .int 7)]) (("? ?", [.int 7, .int 7]), [(["a"], 1)]) rfl
  exact ⟨(h.2 ["a"] (.int 7) rfl).1 rfl, h.1⟩

end Dinao
